import Mathlib

/-!
Verification of the calculator core (`src/calculator.py`): the numeral-base
converter (`NumberBaseConverter`), the restricted expression evaluator
(`ExpressionEvaluator`) and the history ledger (`HistoryManager`).

Modelling conventions:
* Python strings are `List Char` (ASCII range; the inputs the program deals in
  are ASCII).  `String` literals are converted with `.data`.
* Python floats are modelled by `PyFloat`: a finite value carried as an exact
  rational, or one of the non-finite values `inf`, `-inf`, `nan`.  IEEE-754
  rounding and overflow of doubles are not modelled; every theorem below
  depends only on values where the double computation is exact, and the
  idealisation is noted where it matters.
* Fallible Python code (raising `ValueError` etc.) is modelled with `Option` /
  `Except`.
* The host `eval` call inside `ExpressionEvaluator.evaluate` is an explicit
  parameter (`EvalCore`): the evaluator pipeline around it (sanitising,
  the divide-by-zero regex pre-check, the `^` replacement, the degree-mode
  regex substitutions, the exception mapping and the NaN/infinity post-check)
  is modelled in full from the source.
-/

/-- Model of a CPython `float` value: exact rational for finite values, plus
the three non-finite values.  (Binary rounding of doubles is not modelled.) -/
inductive PyFloat where
  | finite (q : ℚ)
  | inf
  | negInf
  | nan
deriving DecidableEq

/-- `math.isnan(x) or math.isinf(x)` from the source. -/
def PyFloat.isNanOrInf : PyFloat → Bool
  | .finite _ => false
  | _ => true

/-- A float is finite when it is neither NaN nor infinite. -/
def PyFloat.isFinite : PyFloat → Bool
  | .finite _ => true
  | _ => false

/-- Characters stripped by Python's `str.strip()` and skipped by `int()` /
`float()` (ASCII whitespace). -/
def isPySpace (c : Char) : Bool :=
  c = ' ' || c = '\t' || c = '\n' || c = '\r' || c = '\x0b' || c = '\x0c'

/-- Python `str.strip()`: drop whitespace from both ends. -/
def pyStrip (l : List Char) : List Char :=
  ((l.dropWhile isPySpace).reverse.dropWhile isPySpace).reverse

/-- Numeric value of a character as a digit, as recognised by Python's
`int(text, base)`: `0`-`9`, then `a`-`z` / `A`-`Z` for values 10-35. -/
def digitVal (c : Char) : Option Nat :=
  if '0' ≤ c ∧ c ≤ '9' then some (c.toNat - '0'.toNat)
  else if 'a' ≤ c ∧ c ≤ 'z' then some (c.toNat - 'a'.toNat + 10)
  else if 'A' ≤ c ∧ c ≤ 'Z' then some (c.toNat - 'A'.toNat + 10)
  else none

/-- Tail of a CPython digit group (PEP 515): `("_"? digit)*` — a single
underscore may separate two digits, and the group may not end with one. -/
def parseUDigitsTail (b : Nat) : List Char → Option (List Nat)
  | [] => some []
  | c :: rest =>
    if c = '_' then
      match rest with
      | [] => none
      | c2 :: rest2 =>
        match digitVal c2 with
        | some d => if d < b then (parseUDigitsTail b rest2).map (fun l => d :: l) else none
        | none => none
    else
      match digitVal c with
      | some d => if d < b then (parseUDigitsTail b rest).map (fun l => d :: l) else none
      | none => none

/-- A CPython digit group: at least one digit, single underscores allowed
between digits.  Returns the digit values, most significant first. -/
def parseUDigits (b : Nat) : List Char → Option (List Nat)
  | [] => none
  | c :: rest =>
    match digitVal c with
    | some d => if d < b then (parseUDigitsTail b rest).map (fun l => d :: l) else none
    | none => none

/-- Positional value of a most-significant-first digit list. -/
def digitsFold (b : Nat) (ds : List Nat) : Nat :=
  ds.foldl (fun a d => a * b + d) 0

/-- PEP 515 allows one underscore right after a base marker. -/
def dropLeadUnderscore : List Char → List Char
  | [] => []
  | c :: r => if c = '_' then r else c :: r

/-- Does `c` introduce the base marker for base `b` (second character of
`0b` / `0o` / `0x`, case-insensitive)? -/
def isBaseMarkerChar (b : Nat) (c : Char) : Bool :=
  (b = 16 && (c = 'x' || c = 'X')) || (b = 8 && (c = 'o' || c = 'O')) ||
    (b = 2 && (c = 'b' || c = 'B'))

/-- CPython `int(text, base)` drops a matching base marker `0b`/`0o`/`0x`
(case-insensitive). -/
def stripBaseMarker (b : Nat) : List Char → List Char
  | [] => []
  | [c] => [c]
  | c0 :: c :: rest =>
    if c0 = '0' ∧ isBaseMarkerChar b c then dropLeadUnderscore rest
    else c0 :: c :: rest

/-- Model of CPython `int(text, base)` for an explicit base.  Bases outside
`[2, 36]` raise `ValueError` (base 0, whose prefix-driven mode the program
never reaches with a nonempty string, is conservatively mapped to failure;
`int("", 0)` does raise in CPython, so the empty string is treated
faithfully for every base). -/
def pySignSplit : List Char → Bool × List Char
  | [] => (false, [])
  | c :: r =>
    if c = '+' then (false, r)
    else if c = '-' then (true, r)
    else (false, c :: r)

def pyIntParse (s : List Char) (base : Int) : Option Int :=
  if 2 ≤ base ∧ base ≤ 36 then
    let b := base.toNat
    let signed := pySignSplit (pyStrip s)
    let t2 := stripBaseMarker b signed.2
    (parseUDigits b t2).map (fun ds =>
      let v : Int := Int.ofNat (digitsFold b ds)
      if signed.1 then -v else v)
  else none

/-- Split a character list at the first character satisfying `p`; the second
component is `none` when no such character occurs. -/
def splitFirst (p : Char → Bool) : List Char → List Char × Option (List Char)
  | [] => ([], none)
  | c :: rest =>
    if p c then ([], some rest)
    else
      let r := splitFirst p rest
      (c :: r.1, r.2)

/-- Positional value of a base-10 digit list, as a rational. -/
def decDigitsVal (ds : List Nat) : ℚ :=
  ((digitsFold 10 ds : Nat) : ℚ)

/-- Value of a fractional digit group `ds` read after the decimal point. -/
def fracVal (ds : List Nat) : ℚ :=
  decDigitsVal ds / (10 : ℚ) ^ ds.length

/-- Mantissa of a Python float literal: `digitpart`, `digitpart "." digitpart?`
or `"." digitpart` (underscores per PEP 515). -/
def parseMantissa (m : List Char) : Option ℚ :=
  match splitFirst (fun c => c = '.') m with
  | (ip, none) => (parseUDigits 10 ip).map decDigitsVal
  | ([], some []) => none
  | ([], some fp) => (parseUDigits 10 fp).map fracVal
  | (ip, some []) => (parseUDigits 10 ip).map decDigitsVal
  | (ip, some fp) => do
    let i ← parseUDigits 10 ip
    let f ← parseUDigits 10 fp
    pure (decDigitsVal i + fracVal f)

/-- Exponent part of a Python float literal (after the `e`): optional sign
then a digit group. -/
def parseExpPart : List Char → Option Int
  | '+' :: r => (parseUDigits 10 r).map (fun ds => Int.ofNat (digitsFold 10 ds))
  | '-' :: r => (parseUDigits 10 r).map (fun ds => -Int.ofNat (digitsFold 10 ds))
  | r => (parseUDigits 10 r).map (fun ds => Int.ofNat (digitsFold 10 ds))

/-- Numeric part of a Python float literal: mantissa with optional
`("e"|"E") exponent`. -/
def parseDecimalValue (t : List Char) : Option ℚ :=
  match splitFirst (fun c => c = 'e' || c = 'E') t with
  | (m, none) => parseMantissa m
  | (m, some rest) => do
    let q ← parseMantissa m
    let ex ← parseExpPart rest
    pure (q * (10 : ℚ) ^ ex)

/-- Unsigned part of CPython `float(text)`: `inf`/`infinity`/`nan`
(case-insensitive) or a decimal literal. -/
def pyFloatParseUnsigned (t : List Char) (neg : Bool) : Option PyFloat :=
  let low := t.map Char.toLower
  if low = "inf".data ∨ low = "infinity".data then
    some (if neg then .negInf else .inf)
  else if low = "nan".data then some .nan
  else (parseDecimalValue t).map (fun q => .finite (if neg then -q else q))

/-- Model of CPython `float(text)` (finite values exact, not rounded to
binary doubles). -/
def pyFloatParse (s : List Char) : Option PyFloat :=
  let signed := pySignSplit (pyStrip s)
  pyFloatParseUnsigned signed.2 signed.1

/-- Positional digit extraction by repeated division: least significant digit
first, as in the `while num > 0` loop of `to_custom_base` and in the host
`bin`/`oct`/`hex` conversions.  `fuel` bounds the recursion; `fuel = n`
always suffices. -/
def natDigitsAux (b : Nat) : Nat → Nat → List Nat
  | 0, _ => []
  | _ + 1, 0 => []
  | fuel + 1, n + 1 => (n + 1) % b :: natDigitsAux b fuel ((n + 1) / b)

/-- Digit values of `n` in base `b`, least significant first (`[]` for 0). -/
def natDigitsRevN (b n : Nat) : List Nat :=
  natDigitsAux b n n

example : natDigitsRevN 2 6 = [0, 1, 1] := by decide
example : natDigitsRevN 16 255 = [15, 15] := by decide

/-- The digit alphabet of `to_custom_base`:
`"0123456789ABCDEFGHIJKLMNOPQRSTUVWXYZ"`. -/
def customDigits : List Char :=
  "0123456789ABCDEFGHIJKLMNOPQRSTUVWXYZ".data

/-- `digits[d]` indexing into the alphabet above. -/
def digitChar (d : Nat) : Char :=
  customDigits.getD d '0'

/-- Lower-case digit characters, as produced by the host `hex`. -/
def digitCharLower (d : Nat) : Char :=
  if d < 10 then digitChar d else Char.ofNat (d + 87)

/-- Textual digits of `n` in base `b`, most significant first, `0 ↦ "0"`,
using digit alphabet `dc`. -/
def natToBaseChars (dc : Nat → Char) (b n : Nat) : List Char :=
  if n = 0 then ['0'] else ((natDigitsRevN b n).map dc).reverse

example : natToBaseChars digitChar 2 6 = ['1', '1', '0'] := by decide
example : natToBaseChars digitCharLower 16 255 = ['f', 'f'] := by decide

/-- Host `bin(n)`: sign, `0b` marker, then binary digits. -/
def pyBin (n : Int) : List Char :=
  (if n < 0 then ['-'] else []) ++ ['0', 'b'] ++ natToBaseChars digitChar 2 n.natAbs

/-- Host `oct(n)`: sign, `0o` marker, then octal digits. -/
def pyOct (n : Int) : List Char :=
  (if n < 0 then ['-'] else []) ++ ['0', 'o'] ++ natToBaseChars digitChar 8 n.natAbs

/-- Host `hex(n)`: sign, `0x` marker, then lower-case hexadecimal digits. -/
def pyHex (n : Int) : List Char :=
  (if n < 0 then ['-'] else []) ++ ['0', 'x'] ++ natToBaseChars digitCharLower 16 n.natAbs

/-- Python `int(x)` on a float: truncation toward zero; raises on
NaN / infinity. -/
def ratTrunc (q : ℚ) : Int :=
  if q < 0 then -Int.ofNat (q.num.natAbs / q.den) else Int.ofNat (q.num.natAbs / q.den)

/-- `int(value)` on a `PyFloat` (OverflowError / ValueError on non-finite). -/
def pyTrunc : PyFloat → Option Int
  | .finite q => some (ratTrunc q)
  | _ => none

namespace NumberBaseConverter

/-- `ROMAN_MAP` from the source. -/
def ROMAN_MAP : List (Nat × List Char) :=
  [(1000, ['M']), (900, ['C', 'M']), (500, ['D']), (400, ['C', 'D']),
   (100, ['C']), (90, ['X', 'C']), (50, ['L']), (40, ['X', 'L']),
   (10, ['X']), (9, ['I', 'X']), (5, ['V']), (4, ['I', 'V']), (1, ['I'])]

/-- The `for value, numeral in ROMAN_MAP` loop of `int_to_roman`: emit each
numeral `num // value` times, continuing with the remainder. -/
def romanGreedyAux : List (Nat × List Char) → Nat → List Char
  | [], _ => []
  | (v, sym) :: rest, num =>
    (List.replicate (num / v) sym).flatten ++ romanGreedyAux rest (num % v)

/-- `int_to_roman`: fails (raises) outside `[1, 3999]`, otherwise greedy
subtractive encoding over `ROMAN_MAP`. -/
def int_to_roman (num : Int) : Option (List Char) :=
  if num ≤ 0 ∨ 4000 ≤ num then none
  else some (romanGreedyAux ROMAN_MAP num.toNat)

/-- `roman_values` lookup in `roman_to_int` (`None` models the raised
`ValueError` for characters outside the symbol set). -/
def romanValue (c : Char) : Option Nat :=
  if c = 'I' then some 1
  else if c = 'V' then some 5
  else if c = 'X' then some 10
  else if c = 'L' then some 50
  else if c = 'C' then some 100
  else if c = 'D' then some 500
  else if c = 'M' then some 1000
  else none

/-- The `for char in reversed(roman)` loop of `roman_to_int`: subtract a
value smaller than the previously seen one, otherwise add it. -/
def romanScan : List Char → Int → Nat → Option Int
  | [], total, _ => some total
  | c :: rest, total, prev =>
    match romanValue c with
    | none => none
    | some v => romanScan rest (if v < prev then total - Int.ofNat v else total + Int.ofNat v) v

/-- `roman_to_int`: upper-case the input, then scan right-to-left.  Note the
empty string yields 0 without any error. -/
def roman_to_int (roman : List Char) : Option Int :=
  romanScan (roman.map Char.toUpper).reverse 0 0

example : roman_to_int "mCmXC".data = some 1990 := by decide
example : int_to_roman 1990 = some "MCMXC".data := by decide
example : roman_to_int [] = some 0 := by decide

/-- `to_custom_base`: base must be in `[2, 36]`, `0` renders as `"0"`,
digits are collected least-significant-first with `'-'` appended last, and
the list is reversed. -/
def to_custom_base (num : Int) (base : Int) : Option (List Char) :=
  if base < 2 ∨ 36 < base then none
  else if num = 0 then some ['0']
  else
    let r := (natDigitsRevN base.toNat num.natAbs).map digitChar
    let r2 := if num < 0 then r ++ ['-'] else r
    some r2.reverse

/-- `validate_input` from the source: nonempty text, `float` parse for base
10, `int` parse for bases 2/8/16, `False` otherwise. -/
def validate_input (text : List Char) (base : Int) : Bool :=
  if text = [] then false
  else if base = 10 then (pyFloatParse text).isSome
  else if base = 2 ∨ base = 8 ∨ base = 16 then (pyIntParse text base).isSome
  else false

/-- `to_decimal` from the source (`from_base = -1` encodes Roman; any raised
`ValueError`/`TypeError` becomes `none`).  `float` of an int is exact in the
rational model. -/
def to_decimal (value : List Char) (from_base : Int) : Option PyFloat :=
  if from_base = 10 then pyFloatParse value
  else if from_base = 2 ∨ from_base = 8 ∨ from_base = 16 then
    (pyIntParse value from_base).map (fun n : Int => .finite (n : ℚ))
  else if from_base = -1 then
    (roman_to_int value).map (fun n : Int => .finite (n : ℚ))
  else
    (pyIntParse value from_base).map (fun n : Int => .finite (n : ℚ))

/-- Python `str(value)` on a float.  Integral values render as in CPython
(`"4.0"`); for non-integral values a 17-digit expansion approximates the
shortest-round-trip repr (no theorem below depends on this branch). -/
def fracChars : Nat → Nat → Nat → List Char
  | 0, _, _ => []
  | _ + 1, 0, _ => []
  | fuel + 1, num, den => digitChar (num * 10 / den) :: fracChars fuel (num * 10 % den) den

/-- `str()` of a `PyFloat`. -/
def pyFloatStr : PyFloat → List Char
  | .inf => "inf".data
  | .negInf => "-inf".data
  | .nan => "nan".data
  | .finite q =>
    let sign : List Char := if q < 0 then ['-'] else []
    let ip := q.num.natAbs / q.den
    let fp := q.num.natAbs % q.den
    if fp = 0 then sign ++ natToBaseChars digitChar 10 ip ++ ['.', '0']
    else sign ++ natToBaseChars digitChar 10 ip ++ '.' :: fracChars 17 fp q.den

/-- `from_decimal` from the source: truncate to int first (raising on
non-finite values), then dispatch on the target base; slices `[2:]` of the
host `bin`/`oct`/`hex` output drop its first two characters. -/
def from_decimal (value : PyFloat) (to_base : Int) : Option (List Char) :=
  match pyTrunc value with
  | none => none
  | some int_value =>
    if to_base = 10 then some (pyFloatStr value)
    else if to_base = 2 then some ((pyBin int_value).drop 2)
    else if to_base = 8 then some ((pyOct int_value).drop 2)
    else if to_base = 16 then some (((pyHex int_value).drop 2).map Char.toUpper)
    else if to_base = -1 then int_to_roman int_value
    else to_custom_base int_value to_base

example : from_decimal (.finite 10) 2 = some "1010".data := by decide
example : from_decimal (.finite (-1)) 2 = some "b1".data := by decide
example : from_decimal (.finite 255) 16 = some "FF".data := by decide
example : from_decimal (.finite (-255)) 16 = some "XFF".data := by decide
example : from_decimal (.finite 5) (-1) = some "V".data := by decide
example : to_decimal "0x1F".data 16 = some (.finite 31) := by decide
example : to_decimal "".data (-1) = some (.finite 0) := by decide
example : validate_input "0x1F".data 16 = true := by decide
example : validate_input "1_0".data 2 = true := by decide
example : validate_input "FF".data 16 = true := by decide
example : validate_input "2".data 2 = false := by decide

end NumberBaseConverter

namespace ExpressionEvaluator

/-- Error taxonomy surfaced by `evaluate` (§7 of the spec): each constructor
corresponds to one of the `raise` sites / `except` clauses of the source. -/
inductive EvalError where
  | divisionByZero
  | malformedNumber
  | synErr
  | undefinedNameOrInvalidValue
  | invalidResult
  | otherErr
deriving DecidableEq

/-- Exceptions the host `eval` call can raise, as distinguished by the
`except` clauses of `evaluate`. -/
inductive PyExc where
  | zeroDivision
  | synExc
  | valueExc
  | typeExc
  | nameExc
  | otherExc
deriving DecidableEq

/-- Angle mode: the source represents it as the strings `'deg'` / `'rad'`
and tests equality with `'deg'`. -/
inductive AngleMode where
  | deg
  | rad
deriving DecidableEq

/-- The host `eval(expr, safe_dict, {})` facility, abstracted: it receives
the transformed expression text and either raises or returns a float. -/
abbrev EvalCore := List Char → Except PyExc PyFloat

/-- The characters `re.split` splits on in `sanitize_expression`:
`+ - * / ( )`. -/
def isOpSplit (c : Char) : Bool :=
  c = '+' || c = '-' || c = '*' || c = '/' || c = '(' || c = ')'

/-- `re.split(r'[\+\-\*/\(\)]', expr)`: split at every operator or
parenthesis character (empty segments included). -/
def splitOps : List Char → List (List Char)
  | [] => [[]]
  | c :: rest =>
    let r := splitOps rest
    if isOpSplit c then [] :: r
    else
      match r with
      | p :: ps => (c :: p) :: ps
      | [] => [[c]]

/-- `part.count('.')`. -/
def countDots (l : List Char) : Nat :=
  l.countP (fun c => c = '.')

/-- `sanitize_expression`: strip, split on operators, and reject any segment
with more than one decimal point (`ValueError` → malformed number). -/
def sanitize_expression (expr : List Char) : Except EvalError (List Char) :=
  let e := pyStrip expr
  if (splitOps e).any (fun p => 1 < countDots p) then .error .malformedNumber
  else .ok e

/-- Python `\d` on ASCII text. -/
def isPyDigit (c : Char) : Bool :=
  '0' ≤ c && c ≤ '9'

/-- `(?:[^\d]|$)`: end of input or a non-digit character. -/
def endOrNonDigit : List Char → Bool
  | [] => true
  | c :: _ => !isPyDigit c

/-- Backtracking through `\0*` (zero or more NUL characters — `\0` is an
octal escape in the source pattern) followed by `(?:[^\d]|$)`. -/
def nulThenEnd : List Char → Bool
  | [] => true
  | c :: u => !isPyDigit c || (c = '\x00' && nulThenEnd u)

/-- The optional group `(?:\.\0*)?` taken: a literal dot, then `\0*`, then
`(?:[^\d]|$)`. -/
def dotGroupMatch : List Char → Bool
  | [] => false
  | c :: u => if c = '.' then nulThenEnd u else false

/-- What the pattern requires after `/\s*0`: either the optional dot group
matches or it is skipped (regex backtracking tries both). -/
def reAfterZero (t : List Char) : Bool :=
  dotGroupMatch t || endOrNonDigit t

/-- After the `/` and the greedy `\s*`: expect a `0`, then apply `g` to the
remainder. -/
def afterSlashCheck (g : List Char → Bool) (rest : List Char) : Bool :=
  match rest.dropWhile isPySpace with
  | [] => false
  | c2 :: t => if c2 = '0' then g t else false

/-- A match of `/\s*0(?:\.\0*)?(?:[^\d]|$)` anchored at the head of the
list: `/`, greedy whitespace, `0`, then `reAfterZero`. -/
def matchFromSlash : List Char → Bool
  | [] => false
  | c :: rest => if c = '/' then afterSlashCheck reAfterZero rest else false

/-- `re.search` of the divide-by-zero pattern: try every start position. -/
def zeroDivSearch : List Char → Bool
  | [] => false
  | c :: rest => matchFromSlash (c :: rest) || zeroDivSearch rest

/-- The simplified characterisation of one anchored match: `/`, whitespace,
`0`, then a non-digit or end of string. -/
def simpleMatchFromSlash : List Char → Bool
  | [] => false
  | c :: rest => if c = '/' then afterSlashCheck endOrNonDigit rest else false

/-- The simplified characterisation of the search: the dot group of the
source pattern never rejects anything, because a dot is itself a non-digit. -/
def simpleZeroDivSearch : List Char → Bool
  | [] => false
  | c :: rest => simpleMatchFromSlash (c :: rest) || simpleZeroDivSearch rest

example : zeroDivSearch "1/0".data = true := by decide
example : zeroDivSearch "1/0.5".data = true := by decide
example : zeroDivSearch "1/05".data = false := by decide
example : zeroDivSearch "1/ 0".data = true := by decide
example : zeroDivSearch "10/2".data = false := by decide

/-- `expr.replace('^', '**')`. -/
def replaceCaret (l : List Char) : List Char :=
  l.foldr (fun c acc => if c = '^' then '*' :: '*' :: acc else c :: acc) []

/-- Split at the first `')'` (the non-greedy `(.*?)\)` capture); `.` does not
match a newline, so a newline before the `')'` kills the match. -/
def splitAtClose : List Char → Option (List Char × List Char)
  | [] => none
  | c :: rest =>
    if c = ')' then some ([], rest)
    else if c = '\n' then none
    else (splitAtClose rest).map (fun p => (c :: p.1, p.2))

/-- One `re.sub(f ++ "\\((.*?)\\)", f ++ "(radians(\\1))", s)` pass:
left-to-right, non-overlapping, continuing after each replacement; `fuel ≥
s.length` makes the fuel irrelevant. -/
def subTrigF (f : List Char) : Nat → List Char → List Char
  | _, [] => []
  | 0, s => s
  | fuel + 1, c :: rest =>
    if (f ++ ['(']).isPrefixOf (c :: rest) then
      match splitAtClose (List.drop (f.length + 1) (c :: rest)) with
      | some (arg, after) =>
        f ++ '(' :: "radians(".data ++ arg ++ ')' :: ')' :: subTrigF f fuel after
      | none => c :: subTrigF f fuel rest
    else c :: subTrigF f fuel rest

/-- The regex substitution of `evaluate` for one trig-function name. -/
def subTrig (f s : List Char) : List Char :=
  subTrigF f s.length s

example : subTrig "sin".data "sin(30)".data = "sin(radians(30))".data := by decide
example : subTrig "sin".data "asin(1)".data = "asin(radians(1))".data := by decide
example : subTrig "cos".data "sin(cos(30))".data = "sin(cos(radians(30)))".data := by decide

/-- The textual transformation `evaluate` applies before calling the host
evaluator: `^ ↦ **`, then in degree mode the three `sin`/`cos`/`tan`
substitutions in source order. -/
def transformExpr (mode : AngleMode) (e : List Char) : List Char :=
  let e1 := replaceCaret e
  match mode with
  | .deg => subTrig "tan".data (subTrig "cos".data (subTrig "sin".data e1))
  | .rad => e1

example : transformExpr .deg "asin(1)".data = "asin(radians(1))".data := by decide
example : transformExpr .deg "sin(cos(30))".data = "sin(radians(cos(radians(30))))".data := by decide
example : transformExpr .rad "asin(1)".data = "asin(1)".data := by decide

/-- Mapping of host exceptions to the error taxonomy, from the `except`
clauses of `evaluate`. -/
def mapExc : PyExc → EvalError
  | .zeroDivision => .divisionByZero
  | .synExc => .synErr
  | .valueExc => .undefinedNameOrInvalidValue
  | .typeExc => .undefinedNameOrInvalidValue
  | .nameExc => .undefinedNameOrInvalidValue
  | .otherExc => .otherErr

/-- `ExpressionEvaluator.evaluate`: sanitize, divide-by-zero pre-check,
textual transformation, host evaluation, NaN/infinity post-check. -/
def evaluate (core : EvalCore) (expr : List Char) (mode : AngleMode) :
    Except EvalError PyFloat :=
  match sanitize_expression expr with
  | .error err => .error err
  | .ok e =>
    if zeroDivSearch e then .error .divisionByZero
    else
      match core (transformExpr mode e) with
      | .error exc => .error (mapExc exc)
      | .ok v => if v.isNanOrInf then .error .invalidResult else .ok v

example : ∀ core, evaluate core "1/0".data .deg = .error .divisionByZero :=
  fun _ => rfl
example : ∀ core mode, evaluate core "pow(1.5,2.5)".data mode = .error .malformedNumber :=
  fun _ _ => rfl
example : evaluate (fun _ => .ok (.finite 2)) "1/0.5".data .deg = .error .divisionByZero := rfl
example : evaluate (fun _ => .ok .nan) "0*0".data .rad = .error .invalidResult := rfl

end ExpressionEvaluator

/-- `HistoryManager`: the ledger is the ordered list of
(expression, result) pairs. -/
structure HistoryManager where
  history : List (List Char × List Char)
deriving DecidableEq

namespace HistoryManager

/-- `add_entry`: append one pair. -/
def add_entry (m : HistoryManager) (expression result : List Char) : HistoryManager :=
  ⟨m.history ++ [(expression, result)]⟩

/-- `get_history`: render each pair as `expr = result`, oldest first. -/
def get_history (m : HistoryManager) : List (List Char) :=
  m.history.map (fun p => p.1 ++ " = ".data ++ p.2)

/-- `clear`: empty the ledger. -/
def clear (_ : HistoryManager) : HistoryManager :=
  ⟨[]⟩

end HistoryManager

open ExpressionEvaluator in
/-- `CalculatorUI.calculate` restricted to its effect on the ledger: empty
input returns early; a successful evaluation appends `(expression,
str(result))`; any raised error is caught and the ledger is untouched. -/
def uiCalculate (core : EvalCore) (m : HistoryManager) (expr : List Char)
    (mode : AngleMode) : HistoryManager :=
  if expr = [] then m
  else
    match evaluate core expr mode with
    | .ok v => m.add_entry expr (NumberBaseConverter.pyFloatStr v)
    | .error _ => m

open ExpressionEvaluator in
/-- The UI events that touch the ledger. -/
inductive UIEvent where
  | calcExpr (expr : List Char) (mode : AngleMode)
  | clearHistory

open ExpressionEvaluator in
/-- One UI event applied to the ledger. -/
def uiStep (core : EvalCore) (m : HistoryManager) : UIEvent → HistoryManager
  | .calcExpr expr mode => uiCalculate core m expr mode
  | .clearHistory => m.clear

open ExpressionEvaluator in
/-- A whole session: the ledger starts empty and processes events in order. -/
def uiRun (core : EvalCore) (events : List UIEvent) : HistoryManager :=
  events.foldl (uiStep core) ⟨[]⟩

/-! ### Roman round-trip machinery (C8) -/

namespace NumberBaseConverter

/-- Decode-after-encode check for a single value. -/
def romanOk (k : Nat) : Bool :=
  roman_to_int (romanGreedyAux ROMAN_MAP k) == some (Int.ofNat k)

/-- Bounded check of `romanOk` on the interval `(lo, lo + len]`. -/
def romanOkRange (lo : Nat) : Nat → Bool
  | 0 => true
  | len + 1 => romanOk (lo + len + 1) && romanOkRange lo len

theorem romanOkRange_spec : ∀ lo len, romanOkRange lo len = true →
    ∀ k, lo < k → k ≤ lo + len → romanOk k = true := by
  intro lo len
  induction len with
  | zero => intro _ k h1 h2 ; omega
  | succ n ih =>
    intro h k h1 h2
    rw [romanOkRange] at h
    rw [Bool.and_eq_true] at h
    rcases h with ⟨ha, hb⟩
    by_cases hk : k = lo + n + 1
    · exact hk ▸ ha
    · exact ih hb k h1 (by omega)

-- ROMAN-CHUNKS-BEGIN
set_option maxRecDepth 4000 in
theorem romanChunk0 : romanOkRange 0 250 = true := by decide
set_option maxRecDepth 4000 in
theorem romanChunk1 : romanOkRange 250 250 = true := by decide
set_option maxRecDepth 4000 in
theorem romanChunk2 : romanOkRange 500 250 = true := by decide
set_option maxRecDepth 4000 in
theorem romanChunk3 : romanOkRange 750 250 = true := by decide
set_option maxRecDepth 4000 in
theorem romanChunk4 : romanOkRange 1000 250 = true := by decide
set_option maxRecDepth 4000 in
theorem romanChunk5 : romanOkRange 1250 250 = true := by decide
set_option maxRecDepth 4000 in
theorem romanChunk6 : romanOkRange 1500 250 = true := by decide
set_option maxRecDepth 4000 in
theorem romanChunk7 : romanOkRange 1750 250 = true := by decide
set_option maxRecDepth 4000 in
theorem romanChunk8 : romanOkRange 2000 250 = true := by decide
set_option maxRecDepth 4000 in
theorem romanChunk9 : romanOkRange 2250 250 = true := by decide
set_option maxRecDepth 4000 in
theorem romanChunk10 : romanOkRange 2500 250 = true := by decide
set_option maxRecDepth 4000 in
theorem romanChunk11 : romanOkRange 2750 250 = true := by decide
set_option maxRecDepth 4000 in
theorem romanChunk12 : romanOkRange 3000 250 = true := by decide
set_option maxRecDepth 4000 in
theorem romanChunk13 : romanOkRange 3250 250 = true := by decide
set_option maxRecDepth 4000 in
theorem romanChunk14 : romanOkRange 3500 250 = true := by decide
set_option maxRecDepth 4000 in
theorem romanChunk15 : romanOkRange 3750 249 = true := by decide

theorem romanOk_all : ∀ k, 1 ≤ k → k ≤ 3999 → romanOk k = true := by
  intro k h1 h2
  rcases Nat.lt_or_ge k 251 with h | h
  · exact romanOkRange_spec 0 250 romanChunk0 k (by omega) (by omega)
  rcases Nat.lt_or_ge k 501 with h3 | h3
  · exact romanOkRange_spec 250 250 romanChunk1 k (by omega) (by omega)
  rcases Nat.lt_or_ge k 751 with h4 | h4
  · exact romanOkRange_spec 500 250 romanChunk2 k (by omega) (by omega)
  rcases Nat.lt_or_ge k 1001 with h5 | h5
  · exact romanOkRange_spec 750 250 romanChunk3 k (by omega) (by omega)
  rcases Nat.lt_or_ge k 1251 with h6 | h6
  · exact romanOkRange_spec 1000 250 romanChunk4 k (by omega) (by omega)
  rcases Nat.lt_or_ge k 1501 with h7 | h7
  · exact romanOkRange_spec 1250 250 romanChunk5 k (by omega) (by omega)
  rcases Nat.lt_or_ge k 1751 with h8 | h8
  · exact romanOkRange_spec 1500 250 romanChunk6 k (by omega) (by omega)
  rcases Nat.lt_or_ge k 2001 with h9 | h9
  · exact romanOkRange_spec 1750 250 romanChunk7 k (by omega) (by omega)
  rcases Nat.lt_or_ge k 2251 with h10 | h10
  · exact romanOkRange_spec 2000 250 romanChunk8 k (by omega) (by omega)
  rcases Nat.lt_or_ge k 2501 with h11 | h11
  · exact romanOkRange_spec 2250 250 romanChunk9 k (by omega) (by omega)
  rcases Nat.lt_or_ge k 2751 with h12 | h12
  · exact romanOkRange_spec 2500 250 romanChunk10 k (by omega) (by omega)
  rcases Nat.lt_or_ge k 3001 with h13 | h13
  · exact romanOkRange_spec 2750 250 romanChunk11 k (by omega) (by omega)
  rcases Nat.lt_or_ge k 3251 with h14 | h14
  · exact romanOkRange_spec 3000 250 romanChunk12 k (by omega) (by omega)
  rcases Nat.lt_or_ge k 3501 with h15 | h15
  · exact romanOkRange_spec 3250 250 romanChunk13 k (by omega) (by omega)
  rcases Nat.lt_or_ge k 3751 with h16 | h16
  · exact romanOkRange_spec 3500 250 romanChunk14 k (by omega) (by omega)
  exact romanOkRange_spec 3750 249 romanChunk15 k (by omega) (by omega)

theorem roman_round_trip_nat : ∀ k, 1 ≤ k → k ≤ 3999 →
    roman_to_int (romanGreedyAux ROMAN_MAP k) = some (Int.ofNat k) := by
  intro k h1 h2
  have h := romanOk_all k h1 h2
  rw [romanOk, beq_iff_eq] at h
  exact h
-- ROMAN-CHUNKS-END

end NumberBaseConverter

/-! ### Positional digit lemmas -/

/-- Positional value of a least-significant-first digit list. -/
def ofDigitsLSB (b : Nat) : List Nat → Nat
  | [] => 0
  | d :: rest => d + b * ofDigitsLSB b rest

theorem natDigitsAux_fuel_irrel (b : Nat) (hb : 2 ≤ b) :
    ∀ f1 f2 n, n ≤ f1 → n ≤ f2 → natDigitsAux b f1 n = natDigitsAux b f2 n := by
  intro f1
  induction f1 with
  | zero =>
    intro f2 n h1 _
    interval_cases n
    cases f2 <;> rfl
  | succ g ih =>
    intro f2 n h1 h2
    cases n with
    | zero => cases f2 <;> rfl
    | succ m =>
      cases f2 with
      | zero => omega
      | succ g2 =>
        show (m + 1) % b :: natDigitsAux b g ((m + 1) / b)
           = (m + 1) % b :: natDigitsAux b g2 ((m + 1) / b)
        have hd : (m + 1) / b < m + 1 := Nat.div_lt_self (Nat.succ_pos m) (by omega)
        rw [ih g2 ((m + 1) / b) (by omega) (by omega)]

theorem natDigitsRevN_zero (b : Nat) : natDigitsRevN b 0 = [] := by
  cases b <;> rfl

theorem natDigitsRevN_succ (b n : Nat) (hb : 2 ≤ b) (hn : 0 < n) :
    natDigitsRevN b n = n % b :: natDigitsRevN b (n / b) := by
  cases n with
  | zero => omega
  | succ m =>
    show natDigitsAux b (m + 1) (m + 1) = (m + 1) % b :: natDigitsRevN b ((m + 1) / b)
    rw [natDigitsAux]
    have hd : (m + 1) / b < m + 1 := Nat.div_lt_self (Nat.succ_pos m) (by omega)
    rw [natDigitsAux_fuel_irrel b hb m ((m + 1) / b) ((m + 1) / b) (by omega) (le_refl _)]
    rfl

theorem ofDigitsLSB_natDigitsRevN (b : Nat) (hb : 2 ≤ b) :
    ∀ n, ofDigitsLSB b (natDigitsRevN b n) = n := by
  intro n
  induction n using Nat.strong_induction_on with
  | _ n ih =>
    cases Nat.eq_zero_or_pos n with
    | inl h => subst h ; rw [natDigitsRevN_zero] ; rfl
    | inr h =>
      rw [natDigitsRevN_succ b n hb h, ofDigitsLSB,
        ih (n / b) (Nat.div_lt_self h (by omega))]
      exact Nat.mod_add_div n b

theorem natDigitsRevN_lt (b : Nat) (hb : 2 ≤ b) :
    ∀ n, ∀ d ∈ natDigitsRevN b n, d < b := by
  intro n
  induction n using Nat.strong_induction_on with
  | _ n ih =>
    cases Nat.eq_zero_or_pos n with
    | inl h => subst h ; rw [natDigitsRevN_zero] ; intro d hd ; cases hd
    | inr h =>
      rw [natDigitsRevN_succ b n hb h]
      intro d hd
      rcases List.mem_cons.mp hd with h1 | h1
      · subst h1 ; exact Nat.mod_lt _ (by omega)
      · exact ih (n / b) (Nat.div_lt_self h (by omega)) d h1

theorem natDigitsRevN_ne_nil (b n : Nat) (hb : 2 ≤ b) (hn : 0 < n) :
    natDigitsRevN b n ≠ [] := by
  rw [natDigitsRevN_succ b n hb hn]
  exact List.cons_ne_nil _ _

theorem natDigitsRevN_getLast_ne_zero (b : Nat) (hb : 2 ≤ b) :
    ∀ n, 0 < n → ∀ d, (natDigitsRevN b n).getLast? = some d → d ≠ 0 := by
  intro n
  induction n using Nat.strong_induction_on with
  | _ n ih =>
    intro hn d hd
    rw [natDigitsRevN_succ b n hb hn] at hd
    cases Nat.eq_zero_or_pos (n / b) with
    | inl hq =>
      rw [hq, natDigitsRevN_zero] at hd
      simp only [List.getLast?_singleton, Option.some.injEq] at hd
      have : n % b = n := Nat.mod_eq_of_lt (by
        have := Nat.div_eq_zero_iff (by omega : 0 < b) |>.mp hq
        omega)
      omega
    | inr hq =>
      have hne : natDigitsRevN b (n / b) ≠ [] := natDigitsRevN_ne_nil b _ hb hq
      rcases List.exists_cons_of_ne_nil hne with ⟨x, xs, hx⟩
      rw [hx, List.getLast?_cons_cons] at hd
      exact ih (n / b) (Nat.div_lt_self hn (by omega)) hq d (by rw [hx] ; exact hd)

theorem digitChar_ne_zero_char : ∀ d, d < 36 → d ≠ 0 → digitChar d ≠ '0' := by decide

theorem getLast?_map (f : Nat → Char) : ∀ l : List Nat, (l.map f).getLast? = l.getLast?.map f := by
  intro l
  induction l with
  | nil => rfl
  | cons a t ih =>
    cases t with
    | nil => rfl
    | cons x xs =>
      calc (List.map f (a :: x :: xs)).getLast?
          = (f x :: List.map f xs).getLast? := List.getLast?_cons_cons
        _ = (List.map f (x :: xs)).getLast? := rfl
        _ = (x :: xs).getLast?.map f := ih
        _ = (a :: x :: xs).getLast?.map f := by rw [List.getLast?_cons_cons]

theorem natToBaseChars_head_ne_zero (b n : Nat) (hb : 2 ≤ b) (hb36 : b ≤ 36) (hn : 0 < n) :
    (natToBaseChars digitChar b n).head? ≠ some '0' := by
  rw [natToBaseChars, if_neg (by omega)]
  rw [List.head?_reverse, getLast?_map]
  intro hcon
  rcases Option.map_eq_some.mp hcon with ⟨d, hd, hchar⟩
  have hmem : d ∈ natDigitsRevN b n := by
    rcases List.mem_getLast?_eq_getLast (Option.mem_def.mpr hd) with ⟨hne, rfl⟩
    exact List.getLast_mem hne
  have hlt : d < 36 := by
    have := natDigitsRevN_lt b hb n d hmem ; omega
  exact digitChar_ne_zero_char d hlt
    (natDigitsRevN_getLast_ne_zero b hb n hn d hd) hchar

theorem toUpper_digitCharLower : ∀ d, d < 16 → Char.toUpper (digitCharLower d) = digitChar d := by
  decide

theorem natToBaseChars_lower_upper (n : Nat) :
    (natToBaseChars digitCharLower 16 n).map Char.toUpper = natToBaseChars digitChar 16 n := by
  cases Nat.eq_zero_or_pos n with
  | inl h => subst h ; rfl
  | inr h =>
    rw [natToBaseChars, natToBaseChars, if_neg (by omega), if_neg (by omega),
      List.map_reverse, List.map_map]
    congr 1
    apply List.map_congr_left
    intro d hd
    have hlt : d < 16 := natDigitsRevN_lt 16 (by omega) n d hd
    show Char.toUpper (digitCharLower d) = digitChar d
    exact toUpper_digitCharLower d hlt

theorem digitChar_mem_alphabet : ∀ d, d < 36 → digitChar d ∈ customDigits := by decide

/-- Every character of the custom rendering comes from the digit alphabet. -/
theorem natToBaseChars_mem_alphabet (b n : Nat) (hb : 2 ≤ b) (hb36 : b ≤ 36) :
    ∀ c ∈ natToBaseChars digitChar b n, c ∈ customDigits := by
  intro c hc
  rw [natToBaseChars] at hc
  by_cases h0 : n = 0
  · rw [if_pos h0] at hc
    rcases List.mem_singleton.mp hc with rfl
    decide
  · rw [if_neg h0] at hc
    rcases List.mem_map.mp (List.mem_reverse.mp hc) with ⟨d, hd, rfl⟩
    have := natDigitsRevN_lt b hb n d hd
    exact digitChar_mem_alphabet d (by omega)

/-- Python `int()` truncation is the identity on integer values. -/
theorem ratTrunc_intCast (n : Int) : ratTrunc ((n : ℤ) : ℚ) = n := by
  rw [ratTrunc, Rat.num_intCast, Rat.den_intCast]
  rcases lt_or_ge n 0 with h | h
  · rw [if_pos (by exact_mod_cast Int.cast_lt_zero.mpr h), Nat.div_one]
    simp only [Int.ofNat_eq_coe]
    omega
  · rw [if_neg (by
      intro hcon
      have : n < 0 := by exact_mod_cast Int.cast_lt_zero.mp hcon
      omega), Nat.div_one]
    simp only [Int.ofNat_eq_coe]
    omega

/-! ### Literal-acceptance lemmas for `validate_input` -/

/-- Is `c` a digit that is valid for radix `b`? -/
def validDigitB (b : Nat) (c : Char) : Bool :=
  match digitVal c with
  | some d => d < b
  | none => false

/-- The literal shape named by the specification: an optional leading sign
followed by one or more digits valid for the radix (no base marker, no
underscores, no surrounding whitespace). -/
def specSimpleIntLiteral (t : List Char) (b : Nat) : Bool :=
  match t with
  | [] => false
  | c :: r =>
    if c = '+' ∨ c = '-' then !r.isEmpty && r.all (validDigitB b)
    else !(c :: r).isEmpty && (c :: r).all (validDigitB b)

theorem digitVal_underscore : digitVal '_' = none := by decide

theorem validDigitB_underscore (b : Nat) : validDigitB b '_' = false := by
  rw [validDigitB, digitVal_underscore]

theorem space_digitVal_none (c : Char) (h : isPySpace c = true) : digitVal c = none := by
  rw [isPySpace] at h
  simp only [Bool.or_eq_true, decide_eq_true_eq] at h
  rcases h with ((((h1 | h1) | h1) | h1) | h1) | h1 <;> subst h1 <;> decide

theorem digitVal_not_space (c : Char) (d : Nat) (h : digitVal c = some d) :
    isPySpace c = false := by
  by_contra hcon
  have hsp : isPySpace c = true := by
    cases hcc : isPySpace c
    · exact absurd hcc hcon
    · rfl
  rw [space_digitVal_none c hsp] at h
  cases h

theorem isSome_map_cons (d : Nat) (o : Option (List Nat)) :
    (o.map (fun l => d :: l)).isSome = o.isSome := by
  cases o <;> rfl

theorem validDigitB_not_space (b : Nat) (c : Char) (h : validDigitB b c = true) :
    isPySpace c = false := by
  rw [validDigitB] at h
  cases hdv : digitVal c with
  | none => rw [hdv] at h ; cases h
  | some d => exact digitVal_not_space c d hdv

theorem dropWhile_eq_self_of_false (p : Char → Bool) (l : List Char)
    (h : ∀ c ∈ l, p c = false) : l.dropWhile p = l := by
  cases l with
  | nil => rfl
  | cons c r =>
    rw [List.dropWhile_cons, h c (List.mem_cons_self c r)]
    simp

theorem pyStrip_eq_self (l : List Char) (h : ∀ c ∈ l, isPySpace c = false) :
    pyStrip l = l := by
  rw [pyStrip, dropWhile_eq_self_of_false _ _ h,
    dropWhile_eq_self_of_false _ _ (fun c hc => h c (List.mem_reverse.mp hc)),
    List.reverse_reverse]

theorem isBaseMarkerChar_not_digit (b : Nat) (c : Char)
    (h : isBaseMarkerChar b c = true) : validDigitB b c = false := by
  rw [isBaseMarkerChar] at h
  simp only [Bool.or_eq_true, Bool.and_eq_true, decide_eq_true_eq] at h
  rcases h with (⟨rfl, rfl | rfl⟩ | ⟨rfl, rfl | rfl⟩) | ⟨rfl, rfl | rfl⟩ <;> decide

theorem stripBaseMarker_eq_self (b : Nat) (l : List Char)
    (h : ∀ c ∈ l, validDigitB b c = true) : stripBaseMarker b l = l := by
  match l with
  | [] => rfl
  | [c] => rfl
  | c0 :: c :: rest =>
    rw [stripBaseMarker, if_neg]
    intro hcon
    rcases hcon with ⟨_, hm⟩
    have hc := h c (List.mem_cons_of_mem c0 (List.mem_cons_self c rest))
    rw [isBaseMarkerChar_not_digit b c hm] at hc
    cases hc

theorem parseUDigitsTail_isSome (b : Nat) :
    ∀ l, (∀ c ∈ l, validDigitB b c = true) → (parseUDigitsTail b l).isSome = true := by
  intro l
  induction l with
  | nil => intro _ ; rfl
  | cons c rest ih =>
    intro h
    have hc := h c (List.mem_cons_self c rest)
    have hcu : c ≠ '_' := by
      intro hcon
      rw [hcon, validDigitB_underscore] at hc
      cases hc
    rw [parseUDigitsTail.eq_def]
    simp only [if_neg hcu]
    rw [validDigitB] at hc
    cases hdv : digitVal c with
    | none => rw [hdv] at hc ; cases hc
    | some d =>
      rw [hdv] at hc
      simp only [decide_eq_true_eq] at hc
      show (if d < b then (parseUDigitsTail b rest).map (fun l => d :: l) else none).isSome = true
      rw [if_pos hc, isSome_map_cons]
      exact ih (fun x hx => h x (List.mem_cons_of_mem c hx))

theorem parseUDigits_isSome (b : Nat) (l : List Char) (hne : l ≠ [])
    (h : ∀ c ∈ l, validDigitB b c = true) : (parseUDigits b l).isSome = true := by
  match l with
  | [] => exact absurd rfl hne
  | c :: rest =>
    have hc := h c (List.mem_cons_self c rest)
    rw [validDigitB] at hc
    rw [parseUDigits]
    cases hdv : digitVal c with
    | none => rw [hdv] at hc ; cases hc
    | some d =>
      rw [hdv] at hc
      simp only [decide_eq_true_eq] at hc
      show (if d < b then (parseUDigitsTail b rest).map (fun l => d :: l) else none).isSome = true
      rw [if_pos hc, isSome_map_cons]
      exact parseUDigitsTail_isSome b rest (fun x hx => h x (List.mem_cons_of_mem c hx))

theorem pySignSplit_plus (r : List Char) : pySignSplit ('+' :: r) = (false, r) := by
  rw [pySignSplit, if_pos rfl]

theorem pySignSplit_minus (r : List Char) : pySignSplit ('-' :: r) = (true, r) := by
  rw [pySignSplit, if_neg (by decide), if_pos rfl]

theorem pySignSplit_other (c : Char) (r : List Char) (h1 : c ≠ '+') (h2 : c ≠ '-') :
    pySignSplit (c :: r) = (false, c :: r) := by
  rw [pySignSplit, if_neg h1, if_neg h2]

theorem isSome_map_int (f : List Nat → Int) (o : Option (List Nat)) :
    (o.map f).isSome = o.isSome := by
  cases o <;> rfl

/-- Every simple sign-and-digits literal is accepted by the host integer
parse. -/
theorem pyIntParse_isSome_simple (t : List Char) (b : Int)
    (hb : b = 2 ∨ b = 8 ∨ b = 16)
    (h : specSimpleIntLiteral t b.toNat = true) : (pyIntParse t b).isSome = true := by
  have hrange : 2 ≤ b ∧ b ≤ 36 := by rcases hb with rfl | rfl | rfl <;> omega
  rw [pyIntParse, if_pos hrange]
  match t with
  | [] => rw [specSimpleIntLiteral] at h ; cases h
  | c :: r =>
    rw [specSimpleIntLiteral] at h
    by_cases hsign : c = '+' ∨ c = '-'
    · rw [if_pos hsign] at h
      simp only [Bool.and_eq_true, Bool.not_eq_true', List.all_eq_true] at h
      rcases h with ⟨hne, hall⟩
      have hne2 : r ≠ [] := by
        cases r with
        | nil => cases hne
        | cons a l => exact List.cons_ne_nil a l
      have hallv : ∀ x ∈ c :: r, isPySpace x = false := by
        intro x hx
        rcases List.mem_cons.mp hx with rfl | hx2
        · rcases hsign with rfl | rfl <;> decide
        · exact validDigitB_not_space _ x (hall x hx2)
      rw [pyStrip_eq_self (c :: r) hallv]
      rcases hsign with rfl | rfl
      · rw [pySignSplit_plus]
        simp only [stripBaseMarker_eq_self _ r hall, isSome_map_int]
        exact parseUDigits_isSome _ r hne2 hall
      · rw [pySignSplit_minus]
        simp only [stripBaseMarker_eq_self _ r hall, isSome_map_int]
        exact parseUDigits_isSome _ r hne2 hall
    · rw [if_neg hsign] at h
      simp only [Bool.and_eq_true, Bool.not_eq_true', List.all_eq_true] at h
      rcases h with ⟨hne, hall⟩
      have hallv : ∀ x ∈ c :: r, isPySpace x = false := by
        intro x hx
        exact validDigitB_not_space _ x (hall x hx)
      rw [pyStrip_eq_self (c :: r) hallv]
      rw [pySignSplit_other c r (fun hcon => hsign (Or.inl hcon)) (fun hcon => hsign (Or.inr hcon))]
      simp only [stripBaseMarker_eq_self _ (c :: r) hall, isSome_map_int]
      exact parseUDigits_isSome _ (c :: r) (List.cons_ne_nil c r) hall

theorem validate_input_accepts_simple (t : List Char) (b : Int)
    (hb : b = 2 ∨ b = 8 ∨ b = 16)
    (h : specSimpleIntLiteral t b.toNat = true) :
    NumberBaseConverter.validate_input t b = true := by
  have hne : t ≠ [] := by
    intro hcon
    subst hcon
    rw [specSimpleIntLiteral] at h
    cases h
  rw [NumberBaseConverter.validate_input, if_neg hne,
    if_neg (by rcases hb with rfl | rfl | rfl <;> decide), if_pos hb]
  exact pyIntParse_isSome_simple t b hb h

theorem validate_input_empty (b : Int) : NumberBaseConverter.validate_input [] b = false := by
  rw [NumberBaseConverter.validate_input, if_pos rfl]

theorem validate_input_other_base (t : List Char) (b : Int)
    (h10 : b ≠ 10) (h2 : b ≠ 2) (h8 : b ≠ 8) (h16 : b ≠ 16) :
    NumberBaseConverter.validate_input t b = false := by
  rw [NumberBaseConverter.validate_input]
  by_cases ht : t = []
  · rw [if_pos ht]
  · rw [if_neg ht, if_neg h10, if_neg (by
      intro hcon
      rcases hcon with hc | hc | hc
      · exact h2 hc
      · exact h8 hc
      · exact h16 hc)]

/-! ### Conversion lemmas (round trips, custom bases) -/

namespace NumberBaseConverter

/-- Unfolding of `from_decimal` on a finite value. -/
theorem from_decimal_finite (q : ℚ) (tb : Int) :
    from_decimal (.finite q) tb =
      (if tb = 10 then some (pyFloatStr (.finite q))
       else if tb = 2 then some ((pyBin (ratTrunc q)).drop 2)
       else if tb = 8 then some ((pyOct (ratTrunc q)).drop 2)
       else if tb = 16 then some (((pyHex (ratTrunc q)).drop 2).map Char.toUpper)
       else if tb = -1 then int_to_roman (ratTrunc q)
       else to_custom_base (ratTrunc q) tb) := rfl

theorem pyBin_drop (n : Int) (h : 0 ≤ n) :
    (pyBin n).drop 2 = natToBaseChars digitChar 2 n.natAbs := by
  rw [pyBin, if_neg (by omega)]
  rfl

theorem pyOct_drop (n : Int) (h : 0 ≤ n) :
    (pyOct n).drop 2 = natToBaseChars digitChar 8 n.natAbs := by
  rw [pyOct, if_neg (by omega)]
  rfl

theorem pyHex_drop (n : Int) (h : 0 ≤ n) :
    (pyHex n).drop 2 = natToBaseChars digitCharLower 16 n.natAbs := by
  rw [pyHex, if_neg (by omega)]
  rfl

theorem to_decimal_int_branch (t : List Char) (b : Int) (hb : b = 2 ∨ b = 8 ∨ b = 16) :
    to_decimal t b = (pyIntParse t b).map (fun n : Int => .finite (n : ℚ)) := by
  rw [to_decimal, if_neg (by rcases hb with rfl | rfl | rfl <;> decide), if_pos hb]

/-- Round trip used by C2, split by target base. -/
theorem round_trip_nonneg (b : Int) (hb : b = 2 ∨ b = 8 ∨ b = 16)
    (t : List Char) (n : Int) (hp : pyIntParse t b = some n) (hn : 0 ≤ n) :
    (to_decimal t b).bind (fun v => from_decimal v b)
      = some (natToBaseChars digitChar b.toNat n.natAbs) := by
  rw [to_decimal_int_branch t b hb, hp]
  show from_decimal (.finite ((n : ℤ) : ℚ)) b = _
  rw [from_decimal_finite, ratTrunc_intCast]
  rcases hb with rfl | rfl | rfl
  · rw [if_neg (by decide), if_pos rfl, pyBin_drop n hn]
    rfl
  · rw [if_neg (by decide), if_neg (by decide), if_pos rfl, pyOct_drop n hn]
    rfl
  · rw [if_neg (by decide), if_neg (by decide), if_neg (by decide), if_pos rfl,
      pyHex_drop n hn, natToBaseChars_lower_upper]
    rfl

/-- The normalized textual form named by the specification: a sign exactly
for negative values, then the magnitude digits with no leading zeros,
upper-case letters, no base marker. -/
def normalTextForm (b : Nat) (n : Int) : List Char :=
  (if n < 0 then ['-'] else []) ++ natToBaseChars digitChar b n.natAbs

theorem to_custom_base_zero (r : Int) (h2 : 2 ≤ r) (h36 : r ≤ 36) :
    to_custom_base 0 r = some ['0'] := by
  rw [to_custom_base, if_neg (by omega), if_pos rfl]

theorem to_custom_base_pos (n r : Int) (h2 : 2 ≤ r) (h36 : r ≤ 36) (hn : 0 < n) :
    to_custom_base n r = some (natToBaseChars digitChar r.toNat n.natAbs) := by
  rw [to_custom_base, if_neg (by omega), if_neg (by omega)]
  simp only [if_neg (by omega : ¬n < 0)]
  rw [natToBaseChars, if_neg (by omega)]

theorem to_custom_base_neg (n r : Int) (h2 : 2 ≤ r) (h36 : r ≤ 36) (hn : n < 0) :
    to_custom_base n r = some ('-' :: natToBaseChars digitChar r.toNat n.natAbs) := by
  rw [to_custom_base, if_neg (by omega), if_neg (by omega)]
  simp only [if_pos hn]
  rw [natToBaseChars, if_neg (by omega), List.reverse_append]
  rfl

theorem to_custom_base_out_of_range (n r : Int) (h : r < 2 ∨ 36 < r) :
    to_custom_base n r = none := by
  rw [to_custom_base, if_pos h]

theorem from_decimal_custom (q : ℚ) (r : Int) (h10 : r ≠ 10) (h2 : r ≠ 2)
    (h8 : r ≠ 8) (h16 : r ≠ 16) (hm1 : r ≠ -1) :
    from_decimal (.finite q) r = to_custom_base (ratTrunc q) r := by
  rw [from_decimal_finite, if_neg h10, if_neg h2, if_neg h8, if_neg h16, if_neg hm1]

theorem from_decimal_out_of_range (v : PyFloat) (r : Int)
    (h : r < 2 ∨ 36 < r) (hm1 : r ≠ -1) : from_decimal v r = none := by
  cases v with
  | finite q =>
    rw [from_decimal_finite, if_neg (by omega), if_neg (by omega),
      if_neg (by omega), if_neg (by omega), if_neg hm1]
    exact to_custom_base_out_of_range _ r h
  | inf => rfl
  | negInf => rfl
  | nan => rfl

theorem pyIntParse_nil (b : Int) : pyIntParse [] b = none := by
  rw [pyIntParse]
  by_cases h : 2 ≤ b ∧ b ≤ 36
  · rw [if_pos h]
    rfl
  · rw [if_neg h]

theorem to_decimal_empty_not_roman (b : Int) (hb : b ≠ -1) : to_decimal [] b = none := by
  rw [to_decimal]
  by_cases h10 : b = 10
  · rw [if_pos h10]
    rfl
  · rw [if_neg h10]
    by_cases hb2 : b = 2 ∨ b = 8 ∨ b = 16
    · rw [if_pos hb2, pyIntParse_nil]
      rfl
    · rw [if_neg hb2, if_neg hb, pyIntParse_nil]
      rfl

end NumberBaseConverter

/-! ### Divide-by-zero pre-check lemmas -/

namespace ExpressionEvaluator

/-- The backtracked NUL group adds nothing: NUL itself is a non-digit. -/
theorem nulThenEnd_eq (t : List Char) : nulThenEnd t = endOrNonDigit t := by
  cases t with
  | nil => rfl
  | cons c u =>
    rw [nulThenEnd, endOrNonDigit]
    by_cases hd : isPyDigit c = true
    · have hc : ¬c = '\x00' := by
        intro hcon
        subst hcon
        cases hd
      simp [hd, hc]
    · simp [Bool.not_eq_true] at hd
      simp [hd]

/-- Regex backtracking through the optional dot group is equivalent to
just requiring a non-digit or end of string. -/
theorem reAfterZero_eq (t : List Char) : reAfterZero t = endOrNonDigit t := by
  rw [reAfterZero]
  cases t with
  | nil => rfl
  | cons c u =>
    by_cases hc : c = '.'
    · subst hc
      rw [dotGroupMatch, if_pos rfl]
      have : endOrNonDigit ('.' :: u) = true := by rw [endOrNonDigit] ; rfl
      rw [this, Bool.or_true]
    · rw [dotGroupMatch, if_neg hc, Bool.false_or]

theorem afterSlashCheck_eq (rest : List Char) :
    afterSlashCheck reAfterZero rest = afterSlashCheck endOrNonDigit rest := by
  rw [afterSlashCheck, afterSlashCheck]
  cases hdw : rest.dropWhile isPySpace with
  | nil => rfl
  | cons c2 t =>
    dsimp only
    by_cases hc : c2 = '0'
    · rw [if_pos hc, if_pos hc, reAfterZero_eq]
    · rw [if_neg hc, if_neg hc]

theorem matchFromSlash_eq (l : List Char) :
    matchFromSlash l = simpleMatchFromSlash l := by
  cases l with
  | nil => rfl
  | cons c rest =>
    rw [matchFromSlash, simpleMatchFromSlash]
    by_cases hc : c = '/'
    · rw [if_pos hc, if_pos hc, afterSlashCheck_eq]
    · rw [if_neg hc, if_neg hc]

/-- The source pattern `/\s*0(?:\.\0*)?(?:[^\d]|$)` matches exactly when the
simplified pattern `/\s*0([^\d]|$)` does. -/
theorem zeroDivSearch_eq_simple (s : List Char) :
    zeroDivSearch s = simpleZeroDivSearch s := by
  induction s with
  | nil => rfl
  | cons c rest ih =>
    rw [zeroDivSearch, simpleZeroDivSearch, matchFromSlash_eq, ih]

/-! ### Structural lemmas about `evaluate` -/

/-- A successful evaluation must have passed the NaN/infinity gate. -/
theorem evaluate_ok_finite (core : EvalCore) (expr : List Char) (mode : AngleMode)
    (v : PyFloat) (h : evaluate core expr mode = .ok v) : v.isFinite = true := by
  rw [evaluate] at h
  cases hs : sanitize_expression expr with
  | error e => rw [hs] at h ; cases h
  | ok e =>
    rw [hs] at h
    dsimp only at h
    by_cases hz : zeroDivSearch e = true
    · rw [if_pos hz] at h ; cases h
    · rw [if_neg hz] at h
      cases hc : core (transformExpr mode e) with
      | error exc => rw [hc] at h ; cases h
      | ok x =>
        rw [hc] at h
        dsimp only at h
        by_cases hn : x.isNanOrInf = true
        · rw [if_pos hn] at h ; cases h
        · rw [if_neg hn] at h
          injection h with hv
          subst hv
          cases x with
          | finite q => rfl
          | inf => exact absurd rfl hn
          | negInf => exact absurd rfl hn
          | nan => exact absurd rfl hn

/-- A NaN or infinite result of the host evaluation is turned into the
invalid-result error. -/
theorem evaluate_nan_invalid (core : EvalCore) (expr e : List Char) (mode : AngleMode)
    (x : PyFloat) (hs : sanitize_expression expr = .ok e) (hz : zeroDivSearch e = false)
    (hc : core (transformExpr mode e) = .ok x) (hx : x.isNanOrInf = true) :
    evaluate core expr mode = .error .invalidResult := by
  rw [evaluate, hs]
  dsimp only
  rw [if_neg (by rw [hz] ; exact Bool.false_ne_true), hc]
  dsimp only
  rw [if_pos hx]

end ExpressionEvaluator

/-! ### Ledger lemmas -/

open ExpressionEvaluator in
/-- A failed evaluation leaves the ledger untouched. -/
theorem uiCalculate_error (core : EvalCore) (m : HistoryManager) (expr : List Char)
    (mode : AngleMode) (err : EvalError) (h : evaluate core expr mode = .error err) :
    uiCalculate core m expr mode = m := by
  rw [uiCalculate]
  by_cases he : expr = []
  · rw [if_pos he]
  · rw [if_neg he, h]

open ExpressionEvaluator in
/-- A successful evaluation appends exactly one entry. -/
theorem uiCalculate_ok (core : EvalCore) (m : HistoryManager) (expr : List Char)
    (mode : AngleMode) (v : PyFloat) (hne : expr ≠ [])
    (h : evaluate core expr mode = .ok v) :
    (uiCalculate core m expr mode).history
      = m.history ++ [(expr, NumberBaseConverter.pyFloatStr v)] := by
  rw [uiCalculate, if_neg hne, h]
  rfl

open ExpressionEvaluator in
/-- Every entry in a run of the session comes from a successful evaluation. -/
theorem uiFold_entries (core : EvalCore) : ∀ (events : List UIEvent) (m : HistoryManager),
    ∀ p ∈ (events.foldl (uiStep core) m).history,
      p ∈ m.history ∨ ∃ expr mode v, evaluate core expr mode = .ok v
        ∧ p = (expr, NumberBaseConverter.pyFloatStr v) := by
  intro events
  induction events with
  | nil =>
    intro m p hp
    exact Or.inl hp
  | cons ev rest ih =>
    intro m p hp
    rw [List.foldl_cons] at hp
    rcases ih (uiStep core m ev) p hp with hmem | hgood
    · cases ev with
      | clearHistory => cases hmem
      | calcExpr expr mode =>
        rw [uiStep, uiCalculate] at hmem
        by_cases he : expr = []
        · rw [if_pos he] at hmem
          exact Or.inl hmem
        · rw [if_neg he] at hmem
          cases hev : evaluate core expr mode with
          | error err =>
            rw [hev] at hmem
            exact Or.inl hmem
          | ok v =>
            rw [hev] at hmem
            rcases List.mem_append.mp hmem with h1 | h1
            · exact Or.inl h1
            · rcases List.mem_singleton.mp h1 with rfl
              exact Or.inr ⟨expr, mode, v, hev, rfl⟩
    · exact Or.inr hgood

/-! ### Degree-mode substitution lemmas -/

namespace ExpressionEvaluator

theorem splitAtClose_len : ∀ (l a r : List Char), splitAtClose l = some (a, r) →
    l.length = a.length + r.length + 1 := by
  intro l
  induction l with
  | nil => intro a r h ; cases h
  | cons c rest ih =>
    intro a r h
    rw [splitAtClose] at h
    by_cases hc : c = ')'
    · rw [if_pos hc] at h
      injection h with h2
      cases h2
      simp
    · rw [if_neg hc] at h
      by_cases hn : c = '\n'
      · rw [if_pos hn] at h ; cases h
      · rw [if_neg hn] at h
        cases hs : splitAtClose rest with
        | none => rw [hs] at h ; cases h
        | some p =>
          rw [hs] at h
          injection h with h2
          dsimp only at h2
          cases h2
          have := ih p.1 p.2 (by rw [hs])
          simp only [List.length_cons]
          omega

theorem splitAtClose_append (arg rest : List Char)
    (h : ∀ c ∈ arg, c ≠ ')' ∧ c ≠ '\n') :
    splitAtClose (arg ++ ')' :: rest) = some (arg, rest) := by
  induction arg with
  | nil => rw [List.nil_append, splitAtClose, if_pos rfl]
  | cons c a ih =>
    have hc := h c (List.mem_cons_self c a)
    rw [List.cons_append, splitAtClose, if_neg hc.1, if_neg hc.2,
      ih (fun x hx => h x (List.mem_cons_of_mem c hx))]
    rfl

theorem subTrigF_nil (f : List Char) (fuel : Nat) : subTrigF f fuel [] = [] := by
  cases fuel <;> rfl

theorem subTrigF_fuel (f : List Char) : ∀ fuel1 fuel2 (s : List Char),
    s.length ≤ fuel1 → s.length ≤ fuel2 → subTrigF f fuel1 s = subTrigF f fuel2 s := by
  intro fuel1
  induction fuel1 with
  | zero =>
    intro fuel2 s h1 _
    have : s = [] := List.length_eq_zero.mp (by omega)
    subst this
    rw [subTrigF_nil, subTrigF_nil]
  | succ g ih =>
    intro fuel2 s h1 h2
    cases s with
    | nil => rw [subTrigF_nil, subTrigF_nil]
    | cons c rest =>
      cases fuel2 with
      | zero => simp at h2
      | succ g2 =>
        rw [subTrigF, subTrigF]
        by_cases hpre : ((f ++ ['(']).isPrefixOf (c :: rest)) = true
        · rw [if_pos hpre, if_pos hpre]
          cases hsp : splitAtClose (List.drop (f.length + 1) (c :: rest)) with
          | none =>
            dsimp only
            rw [ih g2 rest (by simp at h1 ; omega) (by simp at h2 ; omega)]
          | some p =>
            dsimp only
            have hlen := splitAtClose_len _ p.1 p.2 hsp
            rw [List.length_drop] at hlen
            simp only [List.length_cons] at h1 h2 hlen
            rw [ih g2 p.2 (by omega) (by omega)]
        · rw [if_neg hpre, if_neg hpre]
          rw [ih g2 rest (by simp at h1 ; omega) (by simp at h2 ; omega)]

theorem subTrig_cons_skip (f : List Char) (c : Char) (rest : List Char)
    (h : ((f ++ ['(']).isPrefixOf (c :: rest)) = false) :
    subTrig f (c :: rest) = c :: subTrig f rest := by
  rw [subTrig, subTrig, List.length_cons, subTrigF,
    if_neg (by rw [h] ; exact Bool.false_ne_true)]

theorem subTrig_match (f : List Char) (c : Char) (rest arg after : List Char)
    (hpre : ((f ++ ['(']).isPrefixOf (c :: rest)) = true)
    (hsp : splitAtClose (List.drop (f.length + 1) (c :: rest)) = some (arg, after)) :
    subTrig f (c :: rest)
      = f ++ '(' :: "radians(".data ++ arg ++ ')' :: ')' :: subTrig f after := by
  rw [subTrig, subTrig, List.length_cons, subTrigF, if_pos hpre, hsp]
  dsimp only
  have hlen := splitAtClose_len _ arg after hsp
  rw [List.length_drop] at hlen
  simp only [List.length_cons] at hlen
  rw [subTrigF_fuel f rest.length after.length after (by omega) (le_refl _)]

theorem subTrig_id_of_not_mem (f : List Char) (c0 : Char) (hc0 : c0 ∈ f ++ ['(']) :
    ∀ s, c0 ∉ s → subTrig f s = s := by
  intro s
  induction s with
  | nil => intro _ ; rfl
  | cons c rest ih =>
    intro hmem
    cases hpre : ((f ++ ['(']).isPrefixOf (c :: rest)) with
    | false =>
      rw [subTrig_cons_skip f c rest hpre,
        ih (fun hcon => hmem (List.mem_cons_of_mem c hcon))]
    | true =>
      exfalso
      have hsub : (f ++ ['(']) <+: (c :: rest) := List.isPrefixOf_iff_prefix.mp hpre
      exact hmem (hsub.subset hc0)

theorem subTrig_wrap (f : List Char) (hf : f ≠ []) (arg : List Char)
    (harg : ∀ c ∈ arg, c ≠ ')' ∧ c ≠ '\n') :
    subTrig f (f ++ '(' :: arg ++ [')'])
      = f ++ '(' :: "radians(".data ++ arg ++ [')', ')'] := by
  rcases List.exists_cons_of_ne_nil hf with ⟨c, fr, rfl⟩
  have hshape : (c :: fr) ++ '(' :: arg ++ [')']
      = c :: (fr ++ '(' :: (arg ++ ')' :: [])) := by simp
  rw [hshape]
  have hpre : (((c :: fr) ++ ['(']).isPrefixOf
      (c :: (fr ++ '(' :: (arg ++ ')' :: [])))) = true := by
    apply List.isPrefixOf_iff_prefix.mpr
    have : c :: (fr ++ '(' :: (arg ++ ')' :: []))
        = ((c :: fr) ++ ['(']) ++ (arg ++ ')' :: []) := by simp
    rw [this]
    exact List.prefix_append _ _
  have hdrop : List.drop ((c :: fr).length + 1) (c :: (fr ++ '(' :: (arg ++ ')' :: [])))
      = arg ++ ')' :: [] := by
    have : c :: (fr ++ '(' :: (arg ++ ')' :: []))
        = ((c :: fr) ++ ['(']) ++ (arg ++ ')' :: []) := by simp
    rw [this]
    have hlen : (c :: fr).length + 1 = ((c :: fr) ++ ['(']).length := by simp
    rw [hlen]
    exact List.drop_left _ _
  have hsp : splitAtClose (List.drop ((c :: fr).length + 1)
      (c :: (fr ++ '(' :: (arg ++ ')' :: [])))) = some (arg, []) := by
    rw [hdrop]
    exact splitAtClose_append arg [] harg
  rw [subTrig_match (c :: fr) c (fr ++ '(' :: (arg ++ ')' :: [])) arg [] hpre hsp]
  rfl

/-- Characters allowed in the numeric arguments used by the wrap theorem. -/
def numArgChar (c : Char) : Bool :=
  isPyDigit c || c = '.'

theorem numArg_not_mem (arg : List Char) (h : ∀ c ∈ arg, numArgChar c = true)
    (c0 : Char) (hc0 : numArgChar c0 = false) : c0 ∉ arg := by
  intro hmem
  rw [h c0 hmem] at hc0
  cases hc0

theorem numArg_close (arg : List Char) (h : ∀ c ∈ arg, numArgChar c = true) :
    ∀ c ∈ arg, c ≠ ')' ∧ c ≠ '\n' := by
  intro c hc
  have := h c hc
  constructor
  · intro hcon ; subst hcon ; cases this
  · intro hcon ; subst hcon ; cases this

theorem replaceCaret_cons (c : Char) (l : List Char) :
    replaceCaret (c :: l)
      = if c = '^' then '*' :: '*' :: replaceCaret l else c :: replaceCaret l := rfl

theorem replaceCaret_id (l : List Char) (h : ∀ c ∈ l, c ≠ '^') : replaceCaret l = l := by
  induction l with
  | nil => rfl
  | cons c rest ih =>
    rw [replaceCaret_cons, if_neg (h c (List.mem_cons_self c rest)),
      ih (fun x hx => h x (List.mem_cons_of_mem c hx))]

theorem not_mem_append_chars (c0 : Char) (l1 l2 : List Char)
    (h1 : c0 ∉ l1) (h2 : c0 ∉ l2) : c0 ∉ l1 ++ l2 := by
  intro hmem
  rcases List.mem_append.mp hmem with h | h
  · exact h1 h
  · exact h2 h

theorem not_mem_cons_chars (c0 c : Char) (l : List Char)
    (h1 : c0 ≠ c) (h2 : c0 ∉ l) : c0 ∉ c :: l := by
  intro hmem
  rcases List.mem_cons.mp hmem with h | h
  · exact h1 h
  · exact h2 h

/-- Non-membership in a call string `name(arg)`. -/
theorem not_mem_call (c0 : Char) (name arg : List Char) (h1 : c0 ∉ name)
    (h2 : c0 ≠ '(') (h3 : c0 ∉ arg) (h4 : c0 ≠ ')') :
    c0 ∉ name ++ '(' :: arg ++ [')'] := by
  intro hmem
  rcases List.mem_append.mp hmem with hm | hm
  · rcases List.mem_append.mp hm with hm2 | hm2
    · exact h1 hm2
    · rcases List.mem_cons.mp hm2 with hm3 | hm3
      · exact h2 hm3
      · exact h3 hm3
  · exact h4 (List.mem_singleton.mp hm)

/-- Non-membership in a wrapped call string `name(radians(arg))`. -/
theorem not_mem_wrap (c0 : Char) (name arg : List Char) (h1 : c0 ∉ name)
    (h2 : c0 ≠ '(') (h3 : c0 ∉ "radians(".data) (h4 : c0 ∉ arg) (h5 : c0 ≠ ')') :
    c0 ∉ name ++ '(' :: "radians(".data ++ arg ++ [')', ')'] := by
  intro hmem
  rcases List.mem_append.mp hmem with hm | hm
  · rcases List.mem_append.mp hm with hm2 | hm2
    · rcases List.mem_append.mp hm2 with hm3 | hm3
      · exact h1 hm3
      · rcases List.mem_cons.mp hm3 with hm4 | hm4
        · exact h2 hm4
        · exact h3 hm4
    · exact h4 hm2
  · rcases List.mem_cons.mp hm with hm2 | hm2
    · exact h5 hm2
    · exact h5 (List.mem_singleton.mp hm2)

theorem not_prefix_of_head_ne (a b : Char) (p s : List Char) (hab : a ≠ b) :
    ((a :: p).isPrefixOf (b :: s)) = false := by
  cases hpre : ((a :: p).isPrefixOf (b :: s)) with
  | false => rfl
  | true =>
    exfalso
    rcases List.isPrefixOf_iff_prefix.mp hpre with ⟨t, ht⟩
    injection ht with h1 _
    exact hab h1

theorem numArg_ne (arg : List Char) (h : ∀ c ∈ arg, numArgChar c = true)
    (c0 : Char) (hc0 : numArgChar c0 = false) (c : Char) (hc : c ∈ arg) : c ≠ c0 := by
  intro hcon
  subst hcon
  rw [h c hc] at hc0
  cases hc0

theorem numArg_no_caret (arg : List Char) (h : ∀ c ∈ arg, numArgChar c = true) :
    ∀ c ∈ arg, c ≠ '^' := by
  intro c hc
  exact numArg_ne arg h '^' (by decide) c hc

/-- In degree mode the transform wraps the argument of a pure `sin(...)`
call. -/
theorem deg_wrap_sin (arg : List Char) (h : ∀ c ∈ arg, numArgChar c = true) :
    transformExpr .deg ("sin(".data ++ arg ++ [')'])
      = "sin(radians(".data ++ arg ++ "))".data := by
  rw [transformExpr]
  dsimp only
  rw [replaceCaret_id _ (by
    intro c hc
    rcases List.mem_append.mp hc with h1 | h1
    · rcases List.mem_append.mp h1 with h2 | h2
      · intro hcon ; subst hcon ; revert h2 ; decide
      · exact numArg_no_caret arg h c h2
    · intro hcon ; subst hcon ; revert h1 ; decide)]
  have hs : ("sin(".data ++ arg ++ [')'])
      = "sin".data ++ '(' :: arg ++ [')'] := by simp
  rw [hs, subTrig_wrap "sin".data (by decide) arg (numArg_close arg h)]
  have hno_c : subTrig "cos".data ("sin".data ++ '(' :: "radians(".data ++ arg ++ [')', ')'])
      = "sin".data ++ '(' :: "radians(".data ++ arg ++ [')', ')'] := by
    apply subTrig_id_of_not_mem "cos".data 'c' (by decide)
    exact not_mem_wrap 'c' _ arg (by decide) (by decide) (by decide)
      (numArg_not_mem arg h 'c' (by decide)) (by decide)
  have hno_t : subTrig "tan".data ("sin".data ++ '(' :: "radians(".data ++ arg ++ [')', ')'])
      = "sin".data ++ '(' :: "radians(".data ++ arg ++ [')', ')'] := by
    apply subTrig_id_of_not_mem "tan".data 't' (by decide)
    exact not_mem_wrap 't' _ arg (by decide) (by decide) (by decide)
      (numArg_not_mem arg h 't' (by decide)) (by decide)
  rw [hno_c, hno_t]
  simp

/-- In degree mode the transform also wraps the argument of an `asin(...)`
call: the substitution pattern matches the trailing `sin(`. -/
theorem deg_wrap_asin (arg : List Char) (h : ∀ c ∈ arg, numArgChar c = true) :
    transformExpr .deg ("asin(".data ++ arg ++ [')'])
      = "asin(radians(".data ++ arg ++ "))".data := by
  rw [transformExpr]
  dsimp only
  rw [replaceCaret_id _ (by
    intro c hc
    rcases List.mem_append.mp hc with h1 | h1
    · rcases List.mem_append.mp h1 with h2 | h2
      · intro hcon ; subst hcon ; revert h2 ; decide
      · exact numArg_no_caret arg h c h2
    · intro hcon ; subst hcon ; revert h1 ; decide)]
  have hs : ("asin(".data ++ arg ++ [')'])
      = 'a' :: ("sin".data ++ '(' :: arg ++ [')']) := by simp
  rw [hs]
  have hstep : subTrig "sin".data ('a' :: ("sin".data ++ '(' :: arg ++ [')']))
      = 'a' :: subTrig "sin".data ("sin".data ++ '(' :: arg ++ [')']) := by
    apply subTrig_cons_skip
    show (('s' :: 'i' :: 'n' :: ['(']).isPrefixOf _) = false
    exact not_prefix_of_head_ne 's' 'a' _ _ (by decide)
  rw [hstep, subTrig_wrap "sin".data (by decide) arg (numArg_close arg h)]
  have hno_c : subTrig "cos".data
      ('a' :: ("sin".data ++ '(' :: "radians(".data ++ arg ++ [')', ')']))
      = 'a' :: ("sin".data ++ '(' :: "radians(".data ++ arg ++ [')', ')']) := by
    apply subTrig_id_of_not_mem "cos".data 'c' (by decide)
    apply not_mem_cons_chars 'c' 'a' _ (by decide)
    exact not_mem_wrap 'c' _ arg (by decide) (by decide) (by decide)
      (numArg_not_mem arg h 'c' (by decide)) (by decide)
  have hno_t : subTrig "tan".data
      ('a' :: ("sin".data ++ '(' :: "radians(".data ++ arg ++ [')', ')']))
      = 'a' :: ("sin".data ++ '(' :: "radians(".data ++ arg ++ [')', ')']) := by
    apply subTrig_id_of_not_mem "tan".data 't' (by decide)
    apply not_mem_cons_chars 't' 'a' _ (by decide)
    exact not_mem_wrap 't' _ arg (by decide) (by decide) (by decide)
      (numArg_not_mem arg h 't' (by decide)) (by decide)
  rw [hno_c, hno_t]
  simp

/-- In degree mode the transform wraps the argument of a pure `cos(...)`
call. -/
theorem deg_wrap_cos (arg : List Char) (h : ∀ c ∈ arg, numArgChar c = true) :
    transformExpr .deg ("cos(".data ++ arg ++ [')'])
      = "cos(radians(".data ++ arg ++ "))".data := by
  rw [transformExpr]
  dsimp only
  rw [replaceCaret_id _ (by
    intro c hc
    rcases List.mem_append.mp hc with h1 | h1
    · rcases List.mem_append.mp h1 with h2 | h2
      · intro hcon ; subst hcon ; revert h2 ; decide
      · exact numArg_no_caret arg h c h2
    · intro hcon ; subst hcon ; revert h1 ; decide)]
  have hs : ("cos(".data ++ arg ++ [')'])
      = "cos".data ++ '(' :: arg ++ [')'] := by simp
  rw [hs]
  have hno_s : subTrig "sin".data ("cos".data ++ '(' :: arg ++ [')'])
      = "cos".data ++ '(' :: arg ++ [')'] := by
    apply subTrig_id_of_not_mem "sin".data 'i' (by decide)
    exact not_mem_call 'i' _ arg (by decide) (by decide)
      (numArg_not_mem arg h 'i' (by decide)) (by decide)
  rw [hno_s, subTrig_wrap "cos".data (by decide) arg (numArg_close arg h)]
  have hno_t : subTrig "tan".data ("cos".data ++ '(' :: "radians(".data ++ arg ++ [')', ')'])
      = "cos".data ++ '(' :: "radians(".data ++ arg ++ [')', ')'] := by
    apply subTrig_id_of_not_mem "tan".data 't' (by decide)
    exact not_mem_wrap 't' _ arg (by decide) (by decide) (by decide)
      (numArg_not_mem arg h 't' (by decide)) (by decide)
  rw [hno_t]
  simp

/-- In degree mode the transform also wraps the argument of an `acos(...)`
call. -/
theorem deg_wrap_acos (arg : List Char) (h : ∀ c ∈ arg, numArgChar c = true) :
    transformExpr .deg ("acos(".data ++ arg ++ [')'])
      = "acos(radians(".data ++ arg ++ "))".data := by
  rw [transformExpr]
  dsimp only
  rw [replaceCaret_id _ (by
    intro c hc
    rcases List.mem_append.mp hc with h1 | h1
    · rcases List.mem_append.mp h1 with h2 | h2
      · intro hcon ; subst hcon ; revert h2 ; decide
      · exact numArg_no_caret arg h c h2
    · intro hcon ; subst hcon ; revert h1 ; decide)]
  have hs : ("acos(".data ++ arg ++ [')'])
      = 'a' :: ("cos".data ++ '(' :: arg ++ [')']) := by simp
  rw [hs]
  have hno_s : subTrig "sin".data ('a' :: ("cos".data ++ '(' :: arg ++ [')']))
      = 'a' :: ("cos".data ++ '(' :: arg ++ [')']) := by
    apply subTrig_id_of_not_mem "sin".data 'i' (by decide)
    apply not_mem_cons_chars 'i' 'a' _ (by decide)
    exact not_mem_call 'i' _ arg (by decide) (by decide)
      (numArg_not_mem arg h 'i' (by decide)) (by decide)
  rw [hno_s]
  have hstep : subTrig "cos".data ('a' :: ("cos".data ++ '(' :: arg ++ [')']))
      = 'a' :: subTrig "cos".data ("cos".data ++ '(' :: arg ++ [')']) := by
    apply subTrig_cons_skip
    show (('c' :: 'o' :: 's' :: ['(']).isPrefixOf _) = false
    exact not_prefix_of_head_ne 'c' 'a' _ _ (by decide)
  rw [hstep, subTrig_wrap "cos".data (by decide) arg (numArg_close arg h)]
  have hno_t : subTrig "tan".data
      ('a' :: ("cos".data ++ '(' :: "radians(".data ++ arg ++ [')', ')']))
      = 'a' :: ("cos".data ++ '(' :: "radians(".data ++ arg ++ [')', ')']) := by
    apply subTrig_id_of_not_mem "tan".data 't' (by decide)
    apply not_mem_cons_chars 't' 'a' _ (by decide)
    exact not_mem_wrap 't' _ arg (by decide) (by decide) (by decide)
      (numArg_not_mem arg h 't' (by decide)) (by decide)
  rw [hno_t]
  simp

/-- In degree mode the transform wraps the argument of a pure `tan(...)`
call. -/
theorem deg_wrap_tan (arg : List Char) (h : ∀ c ∈ arg, numArgChar c = true) :
    transformExpr .deg ("tan(".data ++ arg ++ [')'])
      = "tan(radians(".data ++ arg ++ "))".data := by
  rw [transformExpr]
  dsimp only
  rw [replaceCaret_id _ (by
    intro c hc
    rcases List.mem_append.mp hc with h1 | h1
    · rcases List.mem_append.mp h1 with h2 | h2
      · intro hcon ; subst hcon ; revert h2 ; decide
      · exact numArg_no_caret arg h c h2
    · intro hcon ; subst hcon ; revert h1 ; decide)]
  have hs : ("tan(".data ++ arg ++ [')'])
      = "tan".data ++ '(' :: arg ++ [')'] := by simp
  rw [hs]
  have hno_s : subTrig "sin".data ("tan".data ++ '(' :: arg ++ [')'])
      = "tan".data ++ '(' :: arg ++ [')'] := by
    apply subTrig_id_of_not_mem "sin".data 'i' (by decide)
    exact not_mem_call 'i' _ arg (by decide) (by decide)
      (numArg_not_mem arg h 'i' (by decide)) (by decide)
  have hno_c : subTrig "cos".data ("tan".data ++ '(' :: arg ++ [')'])
      = "tan".data ++ '(' :: arg ++ [')'] := by
    apply subTrig_id_of_not_mem "cos".data 'c' (by decide)
    exact not_mem_call 'c' _ arg (by decide) (by decide)
      (numArg_not_mem arg h 'c' (by decide)) (by decide)
  rw [hno_s, hno_c, subTrig_wrap "tan".data (by decide) arg (numArg_close arg h)]
  simp

/-- In degree mode the transform also wraps the argument of an `atan(...)`
call. -/
theorem deg_wrap_atan (arg : List Char) (h : ∀ c ∈ arg, numArgChar c = true) :
    transformExpr .deg ("atan(".data ++ arg ++ [')'])
      = "atan(radians(".data ++ arg ++ "))".data := by
  rw [transformExpr]
  dsimp only
  rw [replaceCaret_id _ (by
    intro c hc
    rcases List.mem_append.mp hc with h1 | h1
    · rcases List.mem_append.mp h1 with h2 | h2
      · intro hcon ; subst hcon ; revert h2 ; decide
      · exact numArg_no_caret arg h c h2
    · intro hcon ; subst hcon ; revert h1 ; decide)]
  have hs : ("atan(".data ++ arg ++ [')'])
      = 'a' :: ("tan".data ++ '(' :: arg ++ [')']) := by simp
  rw [hs]
  have hno_s : subTrig "sin".data ('a' :: ("tan".data ++ '(' :: arg ++ [')']))
      = 'a' :: ("tan".data ++ '(' :: arg ++ [')']) := by
    apply subTrig_id_of_not_mem "sin".data 'i' (by decide)
    apply not_mem_cons_chars 'i' 'a' _ (by decide)
    exact not_mem_call 'i' _ arg (by decide) (by decide)
      (numArg_not_mem arg h 'i' (by decide)) (by decide)
  have hno_c : subTrig "cos".data ('a' :: ("tan".data ++ '(' :: arg ++ [')']))
      = 'a' :: ("tan".data ++ '(' :: arg ++ [')']) := by
    apply subTrig_id_of_not_mem "cos".data 'c' (by decide)
    apply not_mem_cons_chars 'c' 'a' _ (by decide)
    exact not_mem_call 'c' _ arg (by decide) (by decide)
      (numArg_not_mem arg h 'c' (by decide)) (by decide)
  rw [hno_s, hno_c]
  have hstep : subTrig "tan".data ('a' :: ("tan".data ++ '(' :: arg ++ [')']))
      = 'a' :: subTrig "tan".data ("tan".data ++ '(' :: arg ++ [')']) := by
    apply subTrig_cons_skip
    show (('t' :: 'a' :: 'n' :: ['(']).isPrefixOf _) = false
    exact not_prefix_of_head_ne 't' 'a' _ _ (by decide)
  rw [hstep, subTrig_wrap "tan".data (by decide) arg (numArg_close arg h)]
  simp

end ExpressionEvaluator

/-! ### Claim theorems -/

open NumberBaseConverter ExpressionEvaluator

instance : DecidableEq (Except EvalError PyFloat) := fun a b =>
  match a, b with
  | .error x, .error y =>
    match decEq x y with
    | isTrue h => isTrue (h ▸ rfl)
    | isFalse h => isFalse (fun hc => h (by cases hc ; rfl))
  | .ok x, .ok y =>
    match decEq x y with
    | isTrue h => isTrue (h ▸ rfl)
    | isFalse h => isFalse (fun hc => h (by cases hc ; rfl))
  | .error _, .ok _ => isFalse (fun hc => by cases hc)
  | .ok _, .error _ => isFalse (fun hc => by cases hc)

/-- Distinguishing evaluation core used by the C1 counterexample: it can see
which transformed text it receives. -/
def coreC1 : EvalCore := fun s =>
  if s = "asin(1)".data then .ok (.finite 1) else .ok (.finite 0)

/-- Claim C1 as stated is false: in Degrees mode the textual substitution
also rewrites the trailing `sin(` of `asin(`, so the argument of `asin` is
wrapped in `radians(...)` and evaluation of `asin(1)` differs between the
two angle modes. -/
theorem C1_counterexample :
    transformExpr .deg "asin(1)".data = "asin(radians(1))".data
    ∧ transformExpr .deg "asin(1)".data ≠ "asin(1)".data
    ∧ evaluate coreC1 "asin(1)".data .deg ≠ evaluate coreC1 "asin(1)".data .rad := by
  decide

/-- Claim C1 (amended): in Degrees mode the transform wraps the argument of
each `sin`/`cos`/`tan` call in a degrees-to-radians conversion, and — the
pattern also matching the tail of the inverse names — the arguments of
`asin`/`acos`/`atan` are wrapped as well. -/
theorem C1_degree_substitution : ∀ arg : List Char, (∀ c ∈ arg, numArgChar c = true) →
    transformExpr .deg ("sin(".data ++ arg ++ [')']) = "sin(radians(".data ++ arg ++ "))".data
    ∧ transformExpr .deg ("cos(".data ++ arg ++ [')']) = "cos(radians(".data ++ arg ++ "))".data
    ∧ transformExpr .deg ("tan(".data ++ arg ++ [')']) = "tan(radians(".data ++ arg ++ "))".data
    ∧ transformExpr .deg ("asin(".data ++ arg ++ [')']) = "asin(radians(".data ++ arg ++ "))".data
    ∧ transformExpr .deg ("acos(".data ++ arg ++ [')']) = "acos(radians(".data ++ arg ++ "))".data
    ∧ transformExpr .deg ("atan(".data ++ arg ++ [')']) = "atan(radians(".data ++ arg ++ "))".data :=
  fun arg h =>
    ⟨deg_wrap_sin arg h, deg_wrap_cos arg h, deg_wrap_tan arg h,
     deg_wrap_asin arg h, deg_wrap_acos arg h, deg_wrap_atan arg h⟩

/-- Witness for C1 at the concrete argument `30`. -/
theorem C1_degree_substitution_witness :
    transformExpr .deg ("sin(".data ++ "30".data ++ [')'])
        = "sin(radians(".data ++ "30".data ++ "))".data
    ∧ transformExpr .deg ("cos(".data ++ "30".data ++ [')'])
        = "cos(radians(".data ++ "30".data ++ "))".data
    ∧ transformExpr .deg ("tan(".data ++ "30".data ++ [')'])
        = "tan(radians(".data ++ "30".data ++ "))".data
    ∧ transformExpr .deg ("asin(".data ++ "30".data ++ [')'])
        = "asin(radians(".data ++ "30".data ++ "))".data
    ∧ transformExpr .deg ("acos(".data ++ "30".data ++ [')'])
        = "acos(radians(".data ++ "30".data ++ "))".data
    ∧ transformExpr .deg ("atan(".data ++ "30".data ++ [')'])
        = "atan(radians(".data ++ "30".data ++ "))".data :=
  C1_degree_substitution "30".data (by decide)

/-- Claim C2 as stated is false for negative integers: the slice `[2:]` of
the host binary rendering of `-1` removes `-0` rather than the `0b` marker,
so the round trip yields `"b1"` instead of `"-1"`. -/
theorem C2_counterexample :
    (to_decimal "-1".data 2).bind (fun v => from_decimal v 2) = some "b1".data
    ∧ "b1".data ≠ "-1".data := by
  decide

/-- Claim C2 (amended): for nonnegative `n` (within the range where the
float pass-through is exact) the round trip produces the normalized textual
form — magnitude digits decoding back to `n`, no leading zero, characters
from the upper-case alphabet, no marker and no sign. -/
theorem C2_round_trip_normalized : ∀ b : Int, (b = 2 ∨ b = 8 ∨ b = 16) →
    ∀ (t : List Char) (n : Int), pyIntParse t b = some n → 0 ≤ n → n ≤ 2 ^ 53 →
    (to_decimal t b).bind (fun v => from_decimal v b) = some (normalTextForm b.toNat n)
    ∧ (n ≠ 0 → (normalTextForm b.toNat n).head? ≠ some '0')
    ∧ ofDigitsLSB b.toNat (natDigitsRevN b.toNat n.natAbs) = n.natAbs
    ∧ ∀ c ∈ normalTextForm b.toNat n, c ∈ customDigits := by
  intro b hb t n hp hn _
  have hb2 : 2 ≤ b.toNat := by rcases hb with rfl | rfl | rfl <;> decide
  have hb36 : b.toNat ≤ 36 := by rcases hb with rfl | rfl | rfl <;> decide
  have hform : normalTextForm b.toNat n = natToBaseChars digitChar b.toNat n.natAbs := by
    rw [normalTextForm, if_neg (by omega)]
    rfl
  refine ⟨?_, ?_, ?_, ?_⟩
  · rw [round_trip_nonneg b hb t n hp hn, hform]
  · intro hn0
    rw [hform]
    exact natToBaseChars_head_ne_zero b.toNat n.natAbs hb2 hb36 (by omega)
  · exact ofDigitsLSB_natDigitsRevN b.toNat hb2 n.natAbs
  · rw [hform]
    exact natToBaseChars_mem_alphabet b.toNat n.natAbs hb2 hb36

/-- Witness for C2 at `t = "ff"`, base 16, value 255. -/
theorem C2_round_trip_normalized_witness :
    (to_decimal "ff".data 16).bind (fun v => from_decimal v 16)
        = some (normalTextForm (Int.toNat 16) 255)
    ∧ (255 ≠ (0 : Int) → (normalTextForm (Int.toNat 16) 255).head? ≠ some '0')
    ∧ ofDigitsLSB (Int.toNat 16) (natDigitsRevN (Int.toNat 16) (Int.natAbs 255))
        = Int.natAbs 255
    ∧ ∀ c ∈ normalTextForm (Int.toNat 16) 255, c ∈ customDigits :=
  C2_round_trip_normalized 16 (by decide) "ff".data 255 (by decide) (by decide) (by decide)

/-- Claim C3 as stated is false about `"1/0.5"`: the pre-check also fires
there (the dot after the zero matches the non-digit alternative), so the
expression fails with DivisionByZero instead of evaluating to `2.0`. -/
theorem C3_counterexample :
    evaluate (fun _ => Except.ok (PyFloat.finite 2)) "1/0.5".data .deg
        = .error .divisionByZero
    ∧ evaluate (fun _ => Except.ok (PyFloat.finite 2)) "1/0.5".data .deg
        ≠ .ok (.finite 2) := by
  decide

/-- Claim C3 (amended): the divide-by-zero pre-check is equivalent to
searching for `/`, optional whitespace, `0`, then a non-digit or end of
string — the optional dot group never excludes anything — so `"1/0"` fails
with DivisionByZero and `"1/0.5"` is likewise flagged. -/
theorem C3_zero_div_precheck :
    (∀ s : List Char, zeroDivSearch s = simpleZeroDivSearch s)
    ∧ (∀ (core : EvalCore) (mode : AngleMode),
        evaluate core "1/0".data mode = .error .divisionByZero)
    ∧ (∀ (core : EvalCore) (mode : AngleMode),
        evaluate core "1/0.5".data mode = .error .divisionByZero) :=
  ⟨zeroDivSearch_eq_simple, fun _ _ => rfl, fun _ _ => rfl⟩

/-- Claim C4 as stated is false for the Roman source: on the empty string
`roman_to_int` returns 0 from its empty scan, so `to_decimal` succeeds. -/
theorem C4_counterexample :
    to_decimal [] (-1) = some (.finite 0) ∧ to_decimal [] (-1) ≠ none := by
  decide

/-- Claim C4 (amended): the empty string fails for every source system
except Roman, which succeeds with 0. -/
theorem C4_empty_input :
    (∀ b : Int, b ≠ -1 → to_decimal [] b = none)
    ∧ to_decimal [] (-1) = some (.finite 0) :=
  ⟨to_decimal_empty_not_roman, by decide⟩

/-- Witness for C4 at base 37. -/
theorem C4_empty_input_witness :
    to_decimal [] 37 = none ∧ to_decimal [] (-1) = some (.finite 0) :=
  ⟨C4_empty_input.1 37 (by decide), C4_empty_input.2⟩

/-- Claim C5 as stated is false: the host integer parse also accepts base
markers, so `"0x1F"` is accepted for base 16 although it is not an optional
sign followed by hexadecimal digits. -/
theorem C5_counterexample :
    validate_input "0x1F".data 16 = true
    ∧ specSimpleIntLiteral "0x1F".data 16 = false := by
  decide

/-- Claim C5 (amended): `validate_input` rejects empty text and bases
outside 2/8/10/16; for bases 2/8/16 it accepts every simple
sign-and-digits literal (together with the host extensions, witness the
counterexample); for base 10 it is exactly the host float parse. -/
theorem C5_validate_input :
    (∀ b : Int, validate_input [] b = false)
    ∧ (∀ (t : List Char) (b : Int), b ≠ 10 → b ≠ 2 → b ≠ 8 → b ≠ 16 →
        validate_input t b = false)
    ∧ (∀ (t : List Char) (b : Int), (b = 2 ∨ b = 8 ∨ b = 16) →
        specSimpleIntLiteral t b.toNat = true → validate_input t b = true)
    ∧ (∀ t : List Char, validate_input t 10 = (pyFloatParse t).isSome) := by
  refine ⟨validate_input_empty, validate_input_other_base, validate_input_accepts_simple, ?_⟩
  intro t
  by_cases ht : t = []
  · subst ht
    rw [validate_input_empty]
    rfl
  · rw [validate_input, if_neg ht, if_pos rfl]

/-- Witness for C5 at concrete inputs. -/
theorem C5_validate_input_witness :
    validate_input [] 5 = false
    ∧ validate_input "1".data 3 = false
    ∧ validate_input "-101".data 2 = true
    ∧ validate_input "1.5".data 10 = (pyFloatParse "1.5".data).isSome :=
  ⟨C5_validate_input.1 5,
   C5_validate_input.2.1 "1".data 3 (by decide) (by decide) (by decide) (by decide),
   C5_validate_input.2.2.1 "-101".data 2 (by decide) (by decide),
   C5_validate_input.2.2.2 "1.5".data⟩

/-- Claim C6: a successful evaluation always returns a finite value, and a
NaN or infinite numeric result of the host evaluation is turned into the
invalid-result error. -/
theorem C6_finite_on_success :
    (∀ (core : EvalCore) (expr : List Char) (mode : AngleMode) (v : PyFloat),
        evaluate core expr mode = .ok v → v.isFinite = true)
    ∧ (∀ (core : EvalCore) (expr e : List Char) (mode : AngleMode) (x : PyFloat),
        sanitize_expression expr = .ok e → zeroDivSearch e = false →
        core (transformExpr mode e) = .ok x → x.isNanOrInf = true →
        evaluate core expr mode = .error .invalidResult) :=
  ⟨evaluate_ok_finite, fun core expr e mode x hs hz hc hx =>
    evaluate_nan_invalid core expr e mode x hs hz hc hx⟩

/-- Witness for C6: a finite success and a NaN result at concrete inputs. -/
theorem C6_finite_on_success_witness :
    PyFloat.isFinite (.finite 2) = true
    ∧ evaluate (fun _ => Except.ok PyFloat.nan) "2+2".data .rad
        = .error .invalidResult :=
  ⟨C6_finite_on_success.1 (fun _ => Except.ok (PyFloat.finite 2)) "2+2".data .rad
      (.finite 2) rfl,
   C6_finite_on_success.2 (fun _ => Except.ok PyFloat.nan) "2+2".data "2+2".data .rad
      PyFloat.nan rfl rfl rfl rfl⟩

/-- Claim C7 as stated is false: radix -1 lies outside [2, 36] but is the
dispatch code for Roman, so `from_decimal` succeeds there. -/
theorem C7_counterexample :
    from_decimal (.finite 5) (-1) = some "V".data
    ∧ from_decimal (.finite 5) (-1) ≠ none := by
  decide

/-- Claim C7 (amended): every radix outside [2, 36] other than the Roman
code -1 fails; for radices inside [2, 36] that are not intercepted by the
dedicated 2/8/10/16 renderers, the custom renderer maps 0 to "0", negative
values to a sign plus the magnitude digits, and produces alphabet digits by
repeated division/modulo, reversed. -/
theorem C7_custom_base :
    (∀ (v : PyFloat) (r : Int), (r < 2 ∨ 36 < r) → r ≠ -1 → from_decimal v r = none)
    ∧ (∀ (n r : Int), 2 ≤ r → r ≤ 36 → r ≠ 2 → r ≠ 8 → r ≠ 10 → r ≠ 16 →
        from_decimal (.finite (n : ℚ)) r = to_custom_base n r
        ∧ to_custom_base 0 r = some ['0']
        ∧ (n < 0 → to_custom_base n r
            = some ('-' :: natToBaseChars digitChar r.toNat n.natAbs))
        ∧ (0 < n → to_custom_base n r = some (natToBaseChars digitChar r.toNat n.natAbs))
        ∧ ofDigitsLSB r.toNat (natDigitsRevN r.toNat n.natAbs) = n.natAbs
        ∧ ∀ c ∈ natToBaseChars digitChar r.toNat n.natAbs, c ∈ customDigits) := by
  constructor
  · exact from_decimal_out_of_range
  · intro n r h2 h36 hr2 hr8 hr10 hr16
    have ht2 : 2 ≤ r.toNat := by omega
    have ht36 : r.toNat ≤ 36 := by omega
    refine ⟨?_, to_custom_base_zero r h2 h36, ?_, ?_, ?_, ?_⟩
    · rw [from_decimal_custom (n : ℚ) r hr10 hr2 hr8 hr16 (by omega), ratTrunc_intCast]
    · intro hneg
      exact to_custom_base_neg n r h2 h36 hneg
    · intro hpos
      exact to_custom_base_pos n r h2 h36 hpos
    · exact ofDigitsLSB_natDigitsRevN r.toNat ht2 n.natAbs
    · exact natToBaseChars_mem_alphabet r.toNat n.natAbs ht2 ht36

/-- Witness for C7 at radix 37 (failure) and radix 5 with value -6. -/
theorem C7_custom_base_witness :
    from_decimal (.finite 1) 37 = none
    ∧ from_decimal (.finite ((-6 : Int) : ℚ)) 5 = to_custom_base (-6) 5 :=
  ⟨C7_custom_base.1 (.finite 1) 37 (by decide) (by decide),
   (C7_custom_base.2 (-6) 5 (by decide) (by decide) (by decide) (by decide)
      (by decide) (by decide)).1⟩

/-- Claim C8: the Roman encoder succeeds exactly on [1, 3999] and decoding
its output returns the input. -/
theorem C8_roman_round_trip :
    (∀ n : Int, 1 ≤ n → n ≤ 3999 →
        ∃ s, int_to_roman n = some s ∧ roman_to_int s = some n)
    ∧ (∀ n : Int, n ≤ 0 ∨ 4000 ≤ n → int_to_roman n = none) := by
  constructor
  · intro n h1 h2
    refine ⟨romanGreedyAux ROMAN_MAP n.toNat, ?_, ?_⟩
    · rw [int_to_roman, if_neg (by omega)]
    · have := roman_round_trip_nat n.toNat (by omega) (by omega)
      rw [this]
      congr 1
      simp only [Int.ofNat_eq_coe]
      omega
  · intro n hn
    rw [int_to_roman, if_pos hn]

/-- Witness for C8 at 1987 and 4000. -/
theorem C8_roman_round_trip_witness :
    (∃ s, int_to_roman 1987 = some s ∧ roman_to_int s = some 1987)
    ∧ int_to_roman 4000 = none :=
  ⟨C8_roman_round_trip.1 1987 (by decide) (by decide),
   C8_roman_round_trip.2 4000 (by decide)⟩

/-- Claim C9: a failed evaluation leaves the ledger exactly as it was, and
every entry of any reachable ledger comes from a successful evaluation. -/
theorem C9_ledger_failures :
    (∀ (core : EvalCore) (m : HistoryManager) (expr : List Char) (mode : AngleMode)
        (err : EvalError), evaluate core expr mode = .error err →
        uiCalculate core m expr mode = m)
    ∧ (∀ (core : EvalCore) (events : List UIEvent), ∀ p ∈ (uiRun core events).history,
        ∃ expr mode v, evaluate core expr mode = .ok v
          ∧ p = (expr, pyFloatStr v)) := by
  constructor
  · exact uiCalculate_error
  · intro core events p hp
    rcases uiFold_entries core events ⟨[]⟩ p hp with hmem | hgood
    · cases hmem
    · exact hgood

/-- Witness for C9: a failing and a succeeding calculation at concrete
inputs. -/
theorem C9_ledger_failures_witness :
    uiCalculate (fun _ => Except.ok (PyFloat.finite 2)) ⟨[]⟩ "1/0".data .rad = ⟨[]⟩
    ∧ ∃ expr mode v,
        evaluate (fun _ => Except.ok (PyFloat.finite 2)) expr mode = .ok v
        ∧ ("2+2".data, pyFloatStr (PyFloat.finite 2)) = (expr, pyFloatStr v) :=
  ⟨C9_ledger_failures.1 (fun _ => Except.ok (PyFloat.finite 2)) ⟨[]⟩ "1/0".data .rad
      .divisionByZero rfl,
   C9_ledger_failures.2 (fun _ => Except.ok (PyFloat.finite 2))
      [.calcExpr "2+2".data .rad] ("2+2".data, pyFloatStr (PyFloat.finite 2)) (by decide)⟩

/-- Claim C10: the comma is not a split character, so the two-argument call
`pow(1.5,2.5)` produces the segment `1.5,2.5` with two dots and evaluation
fails with the malformed-number error before anything is evaluated. -/
theorem C10_malformed_comma :
    (∀ (core : EvalCore) (mode : AngleMode),
        evaluate core "pow(1.5,2.5)".data mode = .error .malformedNumber)
    ∧ "1.5,2.5".data ∈ splitOps (pyStrip "pow(1.5,2.5)".data)
    ∧ countDots "1.5,2.5".data = 2 :=
  ⟨fun _ _ => rfl, by decide, by decide⟩
